import Mathlib

/-!
Shallow embedding of the petscan_rs page-list core (src/pagelist.rs,
src/platform.rs, src/app_state.rs) and proofs about it.

Modelling conventions:
* `HashSet<PageListEntry>` is modelled as a `List PageListEntry`; the set is
  keyed by `Title` (the Rust `PartialEq`/`Hash` of `PageListEntry` use only the
  title), `HashSet::insert` keeps the stored element when an equal one is
  present, `HashSet::replace` overwrites it.
* Interior mutability (`RwLock`) is modelled by explicit state passing: a Rust
  method mutating `self` becomes a function returning the new value; `Result`
  becomes `Except String`.
* Database- and network-backed operations (`convert_to_wiki` internals,
  `my::Conn::new`, query execution) are modelled by oracle parameters.
* Unicode-aware Rust operations (`str::trim`, `to_lowercase`, the regex classes
  `\w` and `\s`) are modelled at ASCII precision, which is exact on every
  string the embedded code paths deal with here.
-/

/-- Model of `wikibase::mediawiki::title::Title` (external crate): a namespace
id and the pretty page name; equality and hashing use both fields. -/
structure Title where
  namespace_id : Int
  pretty : String
deriving DecidableEq, Repr

/-- Model of `Title::with_underscores`: the page name with spaces replaced by
underscores. -/
def Title.with_underscores (t : Title) : String :=
  ⟨t.pretty.data.map (fun c => if c = ' ' then '_' else c)⟩

/-- The three-valued disambiguation flag (`TriState` in src/pagelist.rs). -/
inductive TriState where
  | yes
  | no
  | unknown
deriving DecidableEq, Repr

/-- Model of `FileUsage` (src/pagelist.rs). -/
structure FileUsage where
  title : Title
  wiki : String
  namespace_name : String
deriving DecidableEq, Repr

/-- Model of `FileInfo` (src/pagelist.rs). -/
structure FileInfo where
  file_usage : List FileUsage
  img_size : Option Nat
  img_width : Option Nat
  img_height : Option Nat
  img_media_type : Option String
  img_major_mime : Option String
  img_minor_mime : Option String
  img_user_text : Option String
  img_timestamp : Option String
  img_sha1 : Option String
deriving DecidableEq, Repr

/-- Model of `PageCoordinates` (src/pagelist.rs); the `f64` pair is modelled as
rationals, which the embedded claims never inspect. -/
structure PageCoordinates where
  lat : Rat
  lon : Rat
deriving DecidableEq, Repr

/-- Model of `PageListEntry` (src/pagelist.rs): a title plus optional
annotations. The `Box` indirections of the Rust struct are dropped. -/
structure PageListEntry where
  title : Title
  disambiguation : TriState := TriState.unknown
  page_id : Option Nat := none
  page_bytes : Option Nat := none
  incoming_links : Option Nat := none
  link_count : Option Nat := none
  redlink_count : Option Nat := none
  page_timestamp : Option String := none
  page_image : Option String := none
  wikidata_item : Option String := none
  wikidata_label : Option String := none
  wikidata_description : Option String := none
  defaultsort : Option String := none
  coordinates : Option PageCoordinates := none
  file_info : Option FileInfo := none
deriving DecidableEq, Repr

/-- Model of `PageListEntry::new`. -/
def PageListEntry.new (t : Title) : PageListEntry := { title := t }

/-- Two entries are equal as `HashSet` elements iff their titles agree
(the Rust `PartialEq`/`Hash` impls use only the title). -/
def PageListEntry.sameKey (a b : PageListEntry) : Bool :=
  a.title = b.title

/-- Model of `HashSet::insert` on the entry set: when an entry with the same
title is already present the stored entry is kept and the set is unchanged. -/
def hsInsert (s : List PageListEntry) (x : PageListEntry) : List PageListEntry :=
  if s.any (fun e => e.sameKey x) then s else s ++ [x]

/-- Model of `HashSet::replace` on the entry set: any stored entry with the
same title is removed and the new entry is stored. -/
def hsReplace (s : List PageListEntry) (x : PageListEntry) : List PageListEntry :=
  (s.filter (fun e => ¬ e.sameKey x)) ++ [x]

/-- Model of `HashSet::get` on the entry set: the stored entry whose title
equals the probe's title, if any. -/
def hsGet (s : List PageListEntry) (x : PageListEntry) : Option PageListEntry :=
  s.find? (fun e => e.sameKey x)

/-- Model of `PageList` (src/pagelist.rs): an optional wiki tag and the entry
set. -/
structure PageList where
  wiki : Option String
  entries : List PageListEntry
deriving DecidableEq, Repr

/-- Model of `PageList::add_entry`: insert with replace semantics. -/
def PageList.add_entry (pl : PageList) (e : PageListEntry) : PageList :=
  { pl with entries := hsReplace pl.entries e }

/-- Oracle model of the Platform collaborator as the merge path sees it: the
DB/API-backed `PageList::convert_to_wiki` body is abstracted into the
`convert_to_wiki_oracle` field (it queries `page_props` and
`wb_items_per_site`); `params` models the form-parameter dictionary. -/
structure Platform where
  params : List (String × String)
  convert_to_wiki_oracle : String → PageList → Except String PageList

/-- Model of `PageList::convert_to_wiki` (src/pagelist.rs line 1091): a no-op
when the list is untagged or already on the target wiki; otherwise the
database-backed conversion, given by the platform oracle. -/
def PageList.convert_to_wiki (pl : PageList) (wiki : String) (platform : Platform) :
    Except String PageList :=
  if pl.wiki = none ∨ pl.wiki = some wiki then Except.ok pl
  else platform.convert_to_wiki_oracle wiki pl

/-- Model of `PageList::check_before_merging` (src/pagelist.rs lines 640-680).
Returns the possibly-converted other list; the Rust code mutates `pagelist` in
place through interior mutability. -/
def PageList.check_before_merging (pl : PageList) (pagelist : PageList)
    (platform : Option Platform) : Except String PageList :=
  match pl.wiki with
  | none => Except.error "PageList::check_before_merging self.wiki is not set"
  | some my_wiki =>
    if pagelist.wiki = none then
      Except.error "PageList::check_before_merging pagelist.wiki is not set"
    else if pl.wiki ≠ pagelist.wiki then
      match platform with
      | some platform => pagelist.convert_to_wiki my_wiki platform
      | none =>
        Except.error ("PageList::check_before_merging wikis are not identical: "
          ++ (pl.wiki.getD "PageList::check_before_merging:1") ++ "/"
          ++ (pagelist.wiki.getD "PageList::check_before_merging:2"))
    else Except.ok pagelist

/-- Model of `PageList::union` (src/pagelist.rs lines 682-705): after the merge
check, an empty self is replaced by the other's entries wholesale; otherwise
each of the other's entries is inserted with `HashSet::insert` semantics. -/
def PageList.union (pl : PageList) (pagelist : PageList) (platform : Option Platform) :
    Except String PageList :=
  match pl.check_before_merging pagelist platform with
  | Except.error e => Except.error e
  | Except.ok other =>
    if pl.entries.isEmpty then
      Except.ok { pl with entries := other.entries }
    else
      Except.ok { pl with entries := other.entries.foldl hsInsert pl.entries }

/-- Model of `PageList::intersection` (src/pagelist.rs lines 707-720): retain
the entries whose title occurs in the other set. -/
def PageList.intersection (pl : PageList) (pagelist : PageList)
    (platform : Option Platform) : Except String PageList :=
  match pl.check_before_merging pagelist platform with
  | Except.error e => Except.error e
  | Except.ok other =>
    Except.ok
      { pl with
        entries := pl.entries.filter (fun x => other.entries.any (fun e => e.sameKey x)) }

/-- Model of `PageList::difference` (src/pagelist.rs lines 722-735): retain the
entries whose title does not occur in the other set. -/
def PageList.difference (pl : PageList) (pagelist : PageList)
    (platform : Option Platform) : Except String PageList :=
  match pl.check_before_merging pagelist platform with
  | Except.error e => Except.error e
  | Except.ok other =>
    Except.ok
      { pl with
        entries := pl.entries.filter (fun x => ! other.entries.any (fun e => e.sameKey x)) }

/-- Titles present in an entry list. -/
def titlesOf (s : List PageListEntry) : List Title := s.map PageListEntry.title

/-- An entry list has no two entries with the same title (the `HashSet`
invariant). -/
def nodupTitles (s : List PageListEntry) : Prop := (titlesOf s).Nodup

/-- A 3-namespace title used by the concrete counterexamples. -/
def cexTitle : Title := ⟨0, "Foo"⟩

/-- Self-side entry of the C1 counterexample: page_id 1. -/
def cexSelfEntry : PageListEntry := { title := cexTitle, page_id := some 1 }

/-- Other-side entry of the C1 counterexample: same title, page_id 2. -/
def cexOtherEntry : PageListEntry := { title := cexTitle, page_id := some 2 }

/-- Self-side list of the C1 counterexample. -/
def cexSelf : PageList := ⟨some "enwiki", [cexSelfEntry]⟩

/-- Other-side list of the C1 counterexample. -/
def cexOther : PageList := ⟨some "enwiki", [cexOtherEntry]⟩

/-- Untagged list used by the C5 witness. -/
def cexNoWiki : PageList := ⟨none, [cexSelfEntry]⟩

/-- Wikidata-tagged list used by the C5 witness. -/
def cexWdList : PageList := ⟨some "wikidatawiki", [cexOtherEntry]⟩


/-- Model of the `Combination` tree (src/platform.rs lines 45-52). -/
inductive Combination where
  | none
  | source (s : String)
  | intersection (a b : Combination)
  | union (a b : Combination)
  | not (a b : Combination)
deriving DecidableEq, Repr

/-- Model of `Combination::to_string` (src/platform.rs lines 55-70). -/
def Combination.to_string : Combination → String
  | Combination.none => "nothing"
  | Combination.source s => s
  | Combination.intersection a b =>
      "(" ++ a.to_string ++ " AND " ++ b.to_string ++ ")"
  | Combination.union a b =>
      "(" ++ a.to_string ++ " OR " ++ b.to_string ++ ")"
  | Combination.not a b =>
      "(" ++ a.to_string ++ " NOT " ++ b.to_string ++ ")"

/-- The apostrophe character, written by code point to keep the scanner
definition readable. -/
def aposChar : Char := Char.ofNat 39

/-- Word characters of the tokenising regex class `\w`, at ASCII precision. -/
def isWordChar (c : Char) : Bool := c.isAlphanum || c = '_'

/-- Fuel-indexed scanner for the tokenising regex
`\w+(?:'\w+)?|[^\w\s]` of `Platform::parse_combination_string`: a maximal word
run optionally continued by an apostrophe and a second word run, a single
non-word non-space character, with whitespace skipped. Fuel at least the input
length makes the fuel irrelevant. -/
def tokF : Nat → List Char → List String
  | 0, _ => []
  | _ + 1, [] => []
  | n + 1, c :: rest =>
    if c.isWhitespace then tokF n rest
    else if isWordChar c then
      let run := rest.takeWhile isWordChar
      let rest1 := rest.dropWhile isWordChar
      match rest1 with
      | q :: c2 :: r3 =>
        if q = aposChar ∧ isWordChar c2 then
          String.mk (c :: run ++ q :: c2 :: r3.takeWhile isWordChar)
            :: tokF n (r3.dropWhile isWordChar)
        else String.mk (c :: run) :: tokF n rest1
      | _ => String.mk (c :: run) :: tokF n rest1
    else String.mk [c] :: tokF n rest

/-- The token list of a character list (scanner run with sufficient fuel). -/
def tok (l : List Char) : List String := tokF l.length l

/-- Model of the balanced-parenthesis extraction loop inside
`Platform::parse_combination_string`: consume tokens, pushing all but the
outermost parentheses, until the count returns to zero; `none` when the tokens
run out first. The count is an `Int` exactly as in the source. -/
def grabGroup : List String → Int → List String → Option (List String × List String)
  | [], _, _ => Option.none
  | x :: rest, cnt, acc =>
    if x = "(" then grabGroup rest (cnt + 1) (if cnt > 0 then acc ++ [x] else acc)
    else if x = ")" then
      if cnt - 1 = 0 then some (acc, rest)
      else grabGroup rest (cnt - 1) (acc ++ [x])
    else grabGroup rest cnt (acc ++ [x])

/-- Model of `Vec::join(" ")`. -/
def sjoin : List String → String
  | [] => ""
  | [x] => x
  | x :: xs => x ++ " " ++ sjoin xs

/-- Model of `str::trim` on a character list (ASCII whitespace). -/
def trimChars (l : List Char) : List Char :=
  ((l.dropWhile Char.isWhitespace).reverse.dropWhile Char.isWhitespace).reverse

/-- Model of `str::to_lowercase` (ASCII precision). -/
def toLowerStr (s : String) : String := ⟨s.data.map Char.toLower⟩

/-- The trimmed, lowercased form a string is matched against in
`Platform::parse_combination_string`. -/
def trimLower (s : String) : String := toLowerStr ⟨trimChars s.data⟩

/-- Fuel-indexed model of `Platform::parse_combination_string`
(src/platform.rs lines 1361-1428). One fuel unit is spent per recursive call;
the recursion depth is bounded by the token count, so fuel `length + 1` (used
by `parse_combination_string` below) always suffices. -/
def parseComb : Nat → String → Combination
  | 0, _ => Combination.none
  | f + 1, s =>
    if trimLower s = "" then Combination.none
    else if trimLower s = "categories" ∨ trimLower s = "sparql" ∨ trimLower s = "manual"
        ∨ trimLower s = "pagepile" ∨ trimLower s = "wikidata" then
      Combination.source s
    else if (tok s.data).length < 3 then Combination.none
    else if (tok s.data).headD "" = "(" then
      match grabGroup (tok s.data) 0 [] with
      | Option.none => Combination.none
      | some (acc, rest) =>
        match rest with
        | [] => parseComb f (sjoin acc)
        | comb :: rest2 =>
          if trimLower comb = "and" then
            Combination.intersection (parseComb f (sjoin acc)) (parseComb f (sjoin rest2))
          else if trimLower comb = "or" then
            Combination.union (parseComb f (sjoin acc)) (parseComb f (sjoin rest2))
          else if trimLower comb = "not" then
            Combination.not (parseComb f (sjoin acc)) (parseComb f (sjoin rest2))
          else Combination.none
    else
      match tok s.data with
      | [] => Combination.none
      | left :: rest =>
        match rest with
        | [] => parseComb f left
        | comb :: rest2 =>
          if trimLower comb = "and" then
            Combination.intersection (parseComb f left) (parseComb f (sjoin rest2))
          else if trimLower comb = "or" then
            Combination.union (parseComb f left) (parseComb f (sjoin rest2))
          else if trimLower comb = "not" then
            Combination.not (parseComb f left) (parseComb f (sjoin rest2))
          else Combination.none

/-- Model of `Platform::parse_combination_string`: the fuel-indexed parser with
always-sufficient fuel. -/
def parse_combination_string (s : String) : Combination :=
  parseComb (s.length + 1) s

/-- Model of `Platform::has_param` (src/platform.rs): set and non-blank. -/
def Platform.has_param (p : Platform) (param : String) : Bool :=
  match List.lookup param p.params with
  | some s => s ≠ ""
  | Option.none => false

/-- Model of `Platform::get_param`. -/
def Platform.get_param (p : Platform) (param : String) : Option String :=
  if p.has_param param then List.lookup param p.params else Option.none

/-- Model of `Platform::get_combination` (src/platform.rs lines 1449-1467):
either the parsed `source_combination` parameter, or the fold that wraps each
further source as the left child of a new `Intersection` over the accumulated
tree. -/
def Platform.get_combination (p : Platform) (available_sources : List String) :
    Combination :=
  match p.get_param "source_combination" with
  | some combination_string => parse_combination_string combination_string
  | Option.none =>
    available_sources.foldl
      (fun comb source =>
        if comb = Combination.none then Combination.source source
        else Combination.intersection (Combination.source source) comb)
      Combination.none

/-- Model of `Platform::combine_results` (src/platform.rs lines 1469-1515);
the `HashMap<String, PageList>` of per-source results is an association
list. -/
def Platform.combine_results (p : Platform) (results : List (String × PageList)) :
    Combination → Except String PageList
  | Combination.source s =>
    match List.lookup s results with
    | some r => Except.ok r
    | Option.none => Except.error ("No result for source " ++ s)
  | Combination.union Combination.none c => p.combine_results results c
  | Combination.union c Combination.none => p.combine_results results c
  | Combination.union c d =>
    match p.combine_results results c with
    | Except.error e => Except.error e
    | Except.ok r1 =>
      match p.combine_results results d with
      | Except.error e => Except.error e
      | Except.ok r2 => r1.union r2 (some p)
  | Combination.intersection Combination.none _ =>
    Except.error "Intersection with Combination::None found"
  | Combination.intersection _ Combination.none =>
    Except.error "Intersection with Combination::None found"
  | Combination.intersection c d =>
    match p.combine_results results c with
    | Except.error e => Except.error e
    | Except.ok r1 =>
      match p.combine_results results d with
      | Except.error e => Except.error e
      | Except.ok r2 => r1.intersection r2 (some p)
  | Combination.not Combination.none _ =>
    Except.error "Not with Combination::None found"
  | Combination.not c Combination.none => p.combine_results results c
  | Combination.not c d =>
    match p.combine_results results c with
    | Except.error e => Except.error e
    | Except.ok r1 =>
      match p.combine_results results d with
      | Except.error e => Except.error e
      | Except.ok r2 => r1.difference r2 (some p)
  | Combination.none => Except.error "Combination::None found"


/-- Right-nested intersection over a source-name list: the shape
`Platform::get_combination` builds when read off the reversed source list. -/
def rightNestedIntersection : List String → Combination
  | [] => Combination.none
  | [s] => Combination.source s
  | s :: rest => Combination.intersection (Combination.source s) (rightNestedIntersection rest)

/-- A platform with no form parameters and a trivial conversion oracle, used
by concrete instantiations. -/
def cexPlatform : Platform := ⟨[], fun _ pl => Except.ok pl⟩

/-- A one-source result map for the C4 witness. -/
def c4Results : List (String × PageList) := [("manual", cexSelf)]


/-- Model of `PageListSort` (src/pagelist.rs lines 18-29). -/
inductive PageListSort where
  | default (descending : Bool)
  | title (descending : Bool)
  | ns_title (descending : Bool)
  | size (descending : Bool)
  | date (descending : Bool)
  | redlinks_count (descending : Bool)
  | incoming_links (descending : Bool)
  | file_size (descending : Bool)
  | upload_date (descending : Bool)
  | random (descending : Bool)
deriving DecidableEq, Repr

/-- Model of `PageListSort::new_from_params` (src/pagelist.rs lines 31-45). -/
def PageListSort.new_from_params (s : String) (descending : Bool) : PageListSort :=
  if s = "title" then PageListSort.title descending
  else if s = "ns_title" then PageListSort.ns_title descending
  else if s = "size" then PageListSort.size descending
  else if s = "date" then PageListSort.date descending
  else if s = "redlinks" then PageListSort.redlinks_count descending
  else if s = "incoming_links" then PageListSort.incoming_links descending
  else if s = "filesize" then PageListSort.file_size descending
  else if s = "uploaddate" then PageListSort.upload_date descending
  else if s = "random" then PageListSort.random descending
  else PageListSort.default descending

/-- Comparison on `Nat`, modelling `partial_cmp` on `u32`. -/
def cmpNat (a b : Nat) : Ordering :=
  if a < b then Ordering.lt else if b < a then Ordering.gt else Ordering.eq

/-- Comparison on `Int`, modelling `partial_cmp` on the namespace id. -/
def cmpInt (a b : Int) : Ordering :=
  if a < b then Ordering.lt else if b < a then Ordering.gt else Ordering.eq

/-- Lexicographic character-list comparison, the model of Rust string
`partial_cmp` (byte order, exact at ASCII precision). -/
def lexCmpChars : List Char → List Char → Ordering
  | [], [] => Ordering.eq
  | [], _ :: _ => Ordering.lt
  | _ :: _, [] => Ordering.gt
  | a :: xs, b :: ys =>
    if a < b then Ordering.lt
    else if b < a then Ordering.gt
    else lexCmpChars xs ys

/-- String comparison via `lexCmpChars`. -/
def cmpStr (a b : String) : Ordering := lexCmpChars a.data b.data

/-- Model of `PageListEntry::compare_order`: reverse the ordering when the
descending flag is set. -/
def compare_order (ret : Ordering) (descending : Bool) : Ordering :=
  if descending then ret.swap else ret

/-- Model of `PageListEntry::compare_by_opt`: `Some` orders before `None`, two
`Some`s compare by the element comparison, and the descending flag is applied
by `compare_order`. -/
def compare_by_opt {T : Type} (cmp : T → T → Ordering) (mine other : Option T)
    (descending : Bool) : Ordering :=
  compare_order
    (match mine, other with
     | some a, some b => cmp a b
     | some _, Option.none => Ordering.lt
     | Option.none, some _ => Ordering.gt
     | Option.none, Option.none => Ordering.eq)
    descending

/-- Model of `PageListEntry::compare_by_label` (src/pagelist.rs lines 478-490),
faithful to the source: the fallback for the OTHER entry's missing label is
`self.title.pretty()`, not the other entry's own title. -/
def PageListEntry.compare_by_label (self other : PageListEntry)
    (descending : Bool) : Ordering :=
  let l1 := toLowerStr ((self.wikidata_label.or (some self.title.pretty)).getD "")
  let l2 := toLowerStr ((other.wikidata_label.or (some self.title.pretty)).getD "")
  compare_order (cmpStr l1 l2) descending

/-- Model of `PageListEntry::compare_by_title`. -/
def PageListEntry.compare_by_title (self other : PageListEntry)
    (descending : Bool) : Ordering :=
  compare_order (cmpStr self.title.pretty other.title.pretty) descending

/-- Model of `PageListEntry::compare_by_ns_title`. -/
def PageListEntry.compare_by_ns_title (self other : PageListEntry)
    (descending : Bool) : Ordering :=
  if self.title.namespace_id = other.title.namespace_id then
    self.compare_by_title other descending
  else
    compare_order (cmpInt self.title.namespace_id other.title.namespace_id) descending

/-- Model of `PageListEntry::compare_by_file_size`. -/
def PageListEntry.compare_by_file_size (self other : PageListEntry)
    (descending : Bool) : Ordering :=
  match self.file_info, other.file_info with
  | some f1, some f2 => compare_by_opt cmpNat f1.img_size f2.img_size descending
  | some _, Option.none => Ordering.lt
  | Option.none, some _ => Ordering.gt
  | Option.none, Option.none => Ordering.eq

/-- Model of `PageListEntry::compare_by_upload_date`. -/
def PageListEntry.compare_by_upload_date (self other : PageListEntry)
    (descending : Bool) : Ordering :=
  match self.file_info, other.file_info with
  | some f1, some f2 => compare_by_opt cmpStr f1.img_timestamp f2.img_timestamp descending
  | some _, Option.none => Ordering.lt
  | Option.none, some _ => Ordering.gt
  | Option.none, Option.none => Ordering.eq

/-- Model of `PageListEntry::compare` (src/pagelist.rs lines 346-365). The
extra `rnd` argument models the `rand::random::<bool>()` draw of
`compare_by_random`. -/
def PageListEntry.compare (self other : PageListEntry) (sorter : PageListSort)
    (is_wikidata : Bool) (rnd : Bool) : Ordering :=
  match sorter with
  | PageListSort.default d => compare_by_opt cmpNat self.page_id other.page_id d
  | PageListSort.title d =>
    if is_wikidata then self.compare_by_label other d
    else self.compare_by_title other d
  | PageListSort.ns_title d => self.compare_by_ns_title other d
  | PageListSort.size d => compare_by_opt cmpNat self.page_bytes other.page_bytes d
  | PageListSort.incoming_links d =>
    compare_by_opt cmpNat self.incoming_links other.incoming_links d
  | PageListSort.date d =>
    compare_by_opt cmpStr self.page_timestamp other.page_timestamp d
  | PageListSort.upload_date d => self.compare_by_upload_date other d
  | PageListSort.file_size d => self.compare_by_file_size other d
  | PageListSort.redlinks_count d =>
    compare_by_opt cmpNat self.redlink_count other.redlink_count d
  | PageListSort.random _ => if rnd then Ordering.lt else Ordering.gt

/-- Label-less entry with title `Z`, the self side of the C7 failing input. -/
def c7EntryZ : PageListEntry := { title := ⟨0, "Z"⟩ }

/-- Label-less entry with title `A`, the other side of the C7 failing input. -/
def c7EntryA : PageListEntry := { title := ⟨0, "A"⟩ }


/-- Minimal model of a `serde_json::Value` as the config code reads it. -/
inductive Json where
  | null
  | str (s : String)
  | num (n : Int)
  | arr (l : List Json)
  | obj (l : List (String × Json))

/-- Model of `Value::Index` for an object key: missing keys yield `Null`. -/
def Json.get (j : Json) (key : String) : Json :=
  match j with
  | Json.obj l => (List.lookup key l).getD Json.null
  | _ => Json.null

/-- Model of `Value::Index` for an array position: out of bounds yields
`Null`. -/
def Json.at (j : Json) (i : Nat) : Json :=
  match j with
  | Json.arr l => (l.get? i).getD Json.null
  | _ => Json.null

/-- Model of `Value::as_str`. -/
def Json.as_str (j : Json) : Option String :=
  match j with
  | Json.str s => some s
  | _ => Option.none

/-- Model of `Value::as_u64` (integers only; negative numbers yield `None`). -/
def Json.as_u64 (j : Json) : Option Nat :=
  match j with
  | Json.num n => if 0 ≤ n then some n.toNat else Option.none
  | _ => Option.none

/-- Model of `Value::as_array`. -/
def Json.as_array (j : Json) : Option (List Json) :=
  match j with
  | Json.arr l => some l
  | _ => Option.none

/-- Credential-slot construction of `AppState::new_from_config`
(src/app_state.rs lines 61-99), the part of the constructor that builds
`db_pool`; `expect`/`panic!` calls become `Except.error` with the panic
message. The file-system and site-matrix loads of the constructor are out of
scope of the claims and omitted. -/
def new_from_config_db_pool (config : Json) : Except String (List (String × String)) :=
  match (config.get "user").as_str with
  | Option.none => Except.error "No user key in config file"
  | some user_top =>
    match (config.get "password").as_str with
    | Option.none => Except.error "No password key in config file"
    | some pass_top =>
      match (config.get "mysql").as_array with
      | some up_list =>
        match buildMysqlPool up_list with
        | Except.error e => Except.error e
        | Except.ok pool =>
          if pool.isEmpty then Except.error "No database access config available"
          else Except.ok pool
      | Option.none =>
        let pool := List.replicate (10 - 1) (user_top, pass_top)
        if pool.isEmpty then Except.error "No database access config available"
        else Except.ok pool
where
  /-- The `up_list.iter().for_each(..)` body: each entry contributes
  `connections - 1` slots (`for _ in 1..connections`), with `connections`
  defaulting to 5 when `up[2]` is not a `u64`. -/
  buildMysqlPool : List Json → Except String (List (String × String))
    | [] => Except.ok []
    | up :: rest =>
      match (up.at 0).as_str with
      | Option.none => Except.error "Parsing user from mysql array in config failed"
      | some user =>
        match (up.at 1).as_str with
        | Option.none => Except.error "Parsing pass from mysql array in config failed"
        | some pass =>
          let connections := ((up.at 2).as_u64).getD 5
          match buildMysqlPool rest with
          | Except.error e => Except.error e
          | Except.ok tail =>
            Except.ok (List.replicate (connections - 1) (user, pass) ++ tail)

/-- A config with only top-level credentials (no `mysql` array), for the C8
counterexample. -/
def c8ConfigPlain : Json :=
  Json.obj [("user", Json.str "u"), ("password", Json.str "p")]

/-- A config whose `mysql` array has one entry with `connections = 3`, for the
C8 counterexample. -/
def c8ConfigMysql : Json :=
  Json.obj [("user", Json.str "u"), ("password", Json.str "p"),
    ("mysql", Json.arr [Json.arr
      [Json.str "mu", Json.str "mp", Json.num 3, Json.str "tool"]])]


/-- A single-quote string, written via code point. -/
def squo : String := ⟨[aposChar]⟩

/-- Model of `AppState::get_db_server_group` (src/app_state.rs). -/
def get_db_server_group (config : Json) : String :=
  match (config.get "dbservergroup").as_str with
  | some s => s
  | Option.none => ".web.db.svc.eqiad.wmflabs"

/-- Model of `AppState::db_host_and_schema_for_wiki` (src/app_state.rs):
wiki-name aliasing to `be_x_oldwiki`, host `127.0.0.1` pass-through or
`<wiki><server group>`, schema `<wiki>_p`; the `panic!` on a missing host key
is modelled as an error. -/
def db_host_and_schema_for_wiki (config : Json) (wiki : String) :
    Except String (String × String) :=
  let wiki2 := if wiki = "be-taraskwiki" ∨ wiki = "be-x-oldwiki"
      ∨ wiki = "be_taraskwiki" ∨ wiki = "be_x_oldwiki" then "be_x_oldwiki" else wiki
  match (config.get "host").as_str with
  | Option.none => Except.error "No host in config file"
  | some host_cfg =>
    let host := if host_cfg = "127.0.0.1" then "127.0.0.1"
      else wiki2 ++ get_db_server_group config
    Except.ok (host, wiki2 ++ "_p")

/-- Model of a `my::Conn`: the session statements issued on it. -/
structure Conn where
  session_statements : List String
deriving DecidableEq, Repr

/-- Model of `AppState::set_group_concat_max_len` (src/app_state.rs lines
189-204): a no-op unless the wiki is `commonswiki`, in which case the
`SET SESSION group_concat_max_len = 1000000000` statement is issued (statement
execution is modelled as always succeeding and being recorded). -/
def set_group_concat_max_len (wiki : String) (conn : Conn) : Conn :=
  if wiki ≠ "commonswiki" then conn
  else { session_statements :=
    conn.session_statements ++ ["SET SESSION group_concat_max_len = 1000000000"] }

/-- The final error of `AppState::get_wiki_db_connection`, whose text quotes
`MYSQL_MAX_CONNECTION_ATTEMPTS` (15). -/
def connErrMsg (wiki host schema : String) : String :=
  "Could not connect to database replica for " ++ squo ++ wiki ++ squo ++ " on "
    ++ squo ++ host ++ squo ++ "/" ++ squo ++ schema ++ squo ++ " after 15 attempts"

/-- Observable outcome of the connection loop: how many `Conn::new` attempts
were made, the sleeps performed between failed attempts, and the result. -/
structure ConnAttemptResult where
  attempts : Nat
  sleeps_ms : List Nat
  outcome : Except String Conn
deriving Repr

/-- Model of the retry loop of `AppState::get_wiki_db_connection`
(src/app_state.rs lines 206-248): `connect k` is the oracle for the k-th
`my::Conn::new` outcome; on failure with `loops_left = 0` the loop breaks to
the final error, otherwise it sleeps the current delay, doubles it, caps it at
5000 ms and retries. -/
def connLoop (connect : Nat → Bool) (wiki host schema : String) :
    Nat → Nat → Nat → List Nat → ConnAttemptResult
  | 0, k, _, sleeps =>
    if connect k then
      ⟨k + 1, sleeps, Except.ok (set_group_concat_max_len wiki ⟨[]⟩)⟩
    else
      ⟨k + 1, sleeps, Except.error (connErrMsg wiki host schema)⟩
  | l + 1, k, ms, sleeps =>
    if connect k then
      ⟨k + 1, sleeps, Except.ok (set_group_concat_max_len wiki ⟨[]⟩)⟩
    else
      let ms2 := ms * 2
      connLoop connect wiki host schema l (k + 1)
        (if ms2 > 5000 then 5000 else ms2) (sleeps ++ [ms])

/-- Model of `AppState::get_wiki_db_connection`: derive host and schema, then
run the loop with `MYSQL_MAX_CONNECTION_ATTEMPTS = 15` as the counter and
`MYSQL_CONNECTION_INITIAL_DELAY_MS = 100` as the first delay. -/
def get_wiki_db_connection (connect : Nat → Bool) (config : Json) (wiki : String) :
    Except String ConnAttemptResult :=
  match db_host_and_schema_for_wiki config wiki with
  | Except.error e => Except.error e
  | Except.ok (host, schema) =>
    Except.ok (connLoop connect wiki host schema 15 0 100 [])

/-- The config used by the C9 theorem: localhost pass-through host. -/
def c9Config : Json :=
  Json.obj [("user", Json.str "u"), ("password", Json.str "p"),
    ("host", Json.str "127.0.0.1"), ("schema", Json.str "s")]


/-- Model of a `mysql` cell value as the row-processing code inspects it. -/
inductive MyValue where
  | bytes (s : String)
  | int (i : Int)
  | other
deriving DecidableEq, Repr

/-- Model of a `my::Row`: the list of cell values. -/
def Row := List MyValue

/-- Model of `PageList::string_from_row`: a `Bytes` cell decoded as UTF-8 (the
model carries decoded strings). -/
def string_from_row (row : Row) (col_num : Nat) : Option String :=
  match List.get? row col_num with
  | some (MyValue.bytes s) => some s
  | _ => Option.none

/-- Model of `PageList::entry_from_row` (src/pagelist.rs lines 891-903): a new
entry from the title column and the (integer) namespace column. -/
def entry_from_row (row : Row) (col_title col_ns : Nat) : Option PageListEntry :=
  match string_from_row row col_title with
  | Option.none => Option.none
  | some page_title =>
    match List.get? row col_ns with
    | some (MyValue.int i) => some (PageListEntry.new ⟨i, page_title⟩)
    | _ => Option.none

/-- Model of `PageList::annotate_batch_results` (src/pagelist.rs lines
906-931). The rows returned by the database-backed `run_batch_queries` are the
`rows` oracle parameter; each row is turned into a probe entry, looked up in
the current entry set, mutated by `f` on a clone, and re-inserted with replace
semantics; rows with no parseable probe or no matching entry are dropped. The
iterator chain is lazy in Rust, so each row sees the set updated by the
previous rows, which the fold models. -/
def PageList.annotate_batch_results (pl : PageList) (rows : List Row)
    (col_title col_ns : Nat) (f : Row → PageListEntry → PageListEntry) : PageList :=
  rows.foldl
    (fun acc row =>
      match entry_from_row row col_title col_ns with
      | Option.none => acc
      | some probe =>
        match hsGet acc.entries probe with
        | Option.none => acc
        | some e => acc.add_entry (f row e))
    pl


/-- An SQL fragment plus its parameter list (`SQLtuple` in
src/datasource.rs). -/
abbrev SQLtuple := String × List String

/-- Model of `str::trim` on a `String`. -/
def trimStr (s : String) : String := ⟨trimChars s.data⟩

/-- Comma-joined strings, modelling `Vec::join(",")`. -/
def commaJoin : List String → String
  | [] => ""
  | [x] => x
  | x :: xs => x ++ "," ++ commaJoin xs

/-- Model of `Platform::get_questionmarks` (src/platform.rs lines 1262-1266):
`len` question marks joined by commas. -/
def get_questionmarks (len : Nat) : String := commaJoin (List.replicate len "?")

/-- Model of `Platform::prep_quote` (src/platform.rs lines 1250-1259): trim
each string, drop the blank ones, and pair the question-mark list with the
surviving parameters. -/
def prep_quote (strings : List String) : SQLtuple :=
  let escaped := strings.filterMap
    (fun s => if trimStr s = "" then Option.none else some (trimStr s))
  (get_questionmarks escaped.length, escaped)

/-- Model of `PageList::group_by_namespace` (src/pagelist.rs lines 606-618):
the `HashMap` from namespace id to the underscore-form titles of its entries;
modelled as an association list whose keys are the distinct namespace ids and
whose buckets keep entry order (the Rust `HashMap` iteration order is
unspecified). -/
def group_by_namespace (entries : List PageListEntry) : List (Int × List String) :=
  ((entries.map (fun e => e.title.namespace_id)).dedup).map
    (fun nsid =>
      (nsid, entries.filterMap (fun e =>
        if e.title.namespace_id = nsid then some e.title.with_underscores
        else Option.none)))

/-- Fuel-indexed model of `slice::chunks`: fuel at least the list length makes
the fuel irrelevant (each step removes `n ≥ 1` elements). -/
def chunkGo {α : Type} : Nat → Nat → List α → List (List α)
  | 0, _, _ => []
  | _ + 1, _, [] => []
  | fuel + 1, n, x :: xs => (x :: xs).take n :: chunkGo fuel n ((x :: xs).drop n)

/-- Model of `slice::chunks(n)` (`chunks(0)` panics in Rust and is never
reached: `to_sql_batches` is always called with a positive chunk size). -/
def chunkList {α : Type} (n : Nat) (l : List α) : List (List α) :=
  if n = 0 then [] else chunkGo l.length n l

/-- Model of `PageList::to_sql_batches` (src/pagelist.rs lines 737-751): group
the entries by namespace, chunk each namespace's underscore-form titles, and
emit per chunk the fragment `(page_namespace=<nsid> AND page_title IN(?,…))`
with the prepared parameters. The `Result` wrapper only carries lock-poisoning
errors, which cannot occur in the sequential model. -/
def PageList.to_sql_batches (pl : PageList) (chunk_size : Nat) : List SQLtuple :=
  if pl.entries.isEmpty then []
  else
    ((group_by_namespace pl.entries).map (fun p =>
      (chunkList chunk_size p.2).map (fun chunk =>
        let sql := prep_quote chunk
        (("(page_namespace=" ++ toString p.1 ++ " AND page_title IN(" ++ sql.1 ++ "))",
          sql.2) : SQLtuple)))).flatten

/-- A page list holding one empty-named title, the C6 counterexample input. -/
def c6EmptyTitleList : PageList := ⟨some "enwiki", [{ title := ⟨0, ""⟩ }]⟩


/-- The parser's accepted single-source tokens
(`categories|sparql|manual|pagepile|wikidata`). -/
def sourceTokOk (s : String) : Bool :=
  s = "categories" || s = "sparql" || s = "manual" || s = "pagepile" || s = "wikidata"

/-- Combination trees with no `None` node whose every source name is one of
the parser's accepted source tokens: the domain of the amended round-trip. -/
def WfComb : Combination → Bool
  | Combination.none => false
  | Combination.source s => sourceTokOk s
  | Combination.intersection a b => WfComb a && WfComb b
  | Combination.union a b => WfComb a && WfComb b
  | Combination.not a b => WfComb a && WfComb b

/-- Node count of a combination tree. -/
def Combination.sz : Combination → Nat
  | Combination.none => 1
  | Combination.source _ => 1
  | Combination.intersection a b => 1 + a.sz + b.sz
  | Combination.union a b => 1 + a.sz + b.sz
  | Combination.not a b => 1 + a.sz + b.sz

/-- Whether the tree's root is a binary operator node. -/
def Combination.isCompound : Combination → Bool
  | Combination.intersection _ _ => true
  | Combination.union _ _ => true
  | Combination.not _ _ => true
  | _ => false

/-- The token list the scanner produces from `to_string` of a tree. -/
def Combination.toks : Combination → List String
  | Combination.none => ["nothing"]
  | Combination.source s => [s]
  | Combination.intersection a b => "(" :: (a.toks ++ "AND" :: (b.toks ++ [")"]))
  | Combination.union a b => "(" :: (a.toks ++ "OR" :: (b.toks ++ [")"]))
  | Combination.not a b => "(" :: (a.toks ++ "NOT" :: (b.toks ++ [")"]))

/-- A token as the scanner produces it from a well-formed tree: a non-empty
word run or a parenthesis. -/
def NiceTok (x : String) : Prop :=
  (x.data ≠ [] ∧ ∀ c ∈ x.data, isWordChar c = true) ∨ x = "(" ∨ x = ")"

/-- Character lists that may legally follow a serialised fragment: empty, or
starting with a space or a closing parenthesis. -/
def TailOk (b : List Char) : Prop :=
  b = [] ∨ ∃ d r, b = d :: r ∧ (d = ' ' ∨ d = '(' ∨ d = ')')

/-- The input string falls through the leading `match` of
`parse_combination_string` into the token-splitting body. -/
def stepOneFalls (s : String) : Prop :=
  trimLower s ≠ "" ∧ trimLower s ≠ "categories" ∧ trimLower s ≠ "sparql" ∧
  trimLower s ≠ "manual" ∧ trimLower s ≠ "pagepile" ∧ trimLower s ≠ "wikidata"


/-- The token list between the outer parentheses of a compound tree's
serialisation. -/
def innerToksOf : Combination → List String
  | Combination.intersection a b => a.toks ++ "AND" :: b.toks
  | Combination.union a b => a.toks ++ "OR" :: b.toks
  | Combination.not a b => a.toks ++ "NOT" :: b.toks
  | t => t.toks

/-- Round-trip statement on the serialised string. -/
def RoundTripP (t : Combination) : Prop :=
  ∀ f, parseComb (2 * t.sz + 2 + f) (Combination.to_string t) = t

/-- Round-trip statement on the space-join of the inner token list. -/
def RoundTripQ (t : Combination) : Prop :=
  ∀ f, parseComb (2 * t.sz + f) (sjoin (innerToksOf t)) = t

/-- Round-trip statement on the space-join of the full token list. -/
def RoundTripR (t : Combination) : Prop :=
  ∀ f, parseComb (2 * t.sz + 1 + f) (sjoin t.toks) = t

/-- Trees containing no `None` node: the domain named by the original claim. -/
def noneFree : Combination → Bool
  | Combination.none => false
  | Combination.source _ => true
  | Combination.intersection a b => noneFree a && noneFree b
  | Combination.union a b => noneFree a && noneFree b
  | Combination.not a b => noneFree a && noneFree b

theorem mem_titlesOf {s : List PageListEntry} {t : Title} :
    t ∈ titlesOf s ↔ ∃ e ∈ s, e.title = t := by
  simp [titlesOf]

theorem hsInsert_mem_of_mem {s : List PageListEntry} {e x : PageListEntry}
    (h : e ∈ s) : e ∈ hsInsert s x := by
  unfold hsInsert
  split <;> simp [h]

theorem mem_hsInsert {s : List PageListEntry} {e x : PageListEntry}
    (h : e ∈ hsInsert s x) : e ∈ s ∨ e = x := by
  unfold hsInsert at h
  split at h
  · exact Or.inl h
  · rcases List.mem_append.mp h with h1 | h1
    · exact Or.inl h1
    · simp at h1; exact Or.inr h1

theorem foldl_hsInsert_mem_of_mem {xs : List PageListEntry} {acc : List PageListEntry}
    {e : PageListEntry} (h : e ∈ acc) : e ∈ xs.foldl hsInsert acc := by
  induction xs generalizing acc with
  | nil => exact h
  | cons x xs ih => exact ih (hsInsert_mem_of_mem h)

theorem mem_foldl_hsInsert {xs : List PageListEntry} {acc : List PageListEntry}
    {e : PageListEntry} (h : e ∈ xs.foldl hsInsert acc) : e ∈ acc ∨ e ∈ xs := by
  induction xs generalizing acc with
  | nil => exact Or.inl h
  | cons x xs ih =>
    rcases ih h with h1 | h1
    · rcases mem_hsInsert h1 with h2 | h2
      · exact Or.inl h2
      · subst h2; exact Or.inr (List.mem_cons_self _ _)
    · exact Or.inr (List.mem_cons_of_mem _ h1)

theorem titles_hsInsert {s : List PageListEntry} {x : PageListEntry} {t : Title} :
    (∃ e ∈ hsInsert s x, e.title = t) ↔ (∃ e ∈ s, e.title = t) ∨ x.title = t := by
  unfold hsInsert
  by_cases h : s.any (fun e => e.sameKey x) = true
  · rw [if_pos h]
    simp only [List.any_eq_true, PageListEntry.sameKey, decide_eq_true_eq] at h
    obtain ⟨a, ha, hat⟩ := h
    constructor
    · exact fun he => Or.inl he
    · rintro (he | he)
      · exact he
      · exact ⟨a, ha, by rw [hat, he]⟩
  · rw [if_neg h]
    constructor
    · rintro ⟨e, he, het⟩
      rcases List.mem_append.mp he with h1 | h1
      · exact Or.inl ⟨e, h1, het⟩
      · simp only [List.mem_singleton] at h1; subst h1; exact Or.inr het
    · rintro (⟨e, he, het⟩ | he)
      · exact ⟨e, List.mem_append_left _ he, het⟩
      · exact ⟨x, List.mem_append_right _ (by simp), he⟩

theorem titles_foldl_hsInsert {xs : List PageListEntry} {acc : List PageListEntry}
    {t : Title} :
    (∃ e ∈ xs.foldl hsInsert acc, e.title = t) ↔
      (∃ e ∈ acc, e.title = t) ∨ (∃ e ∈ xs, e.title = t) := by
  induction xs generalizing acc with
  | nil => simp
  | cons x xs ih =>
    simp only [List.foldl_cons]
    rw [ih, titles_hsInsert]
    constructor
    · rintro ((h | h) | h)
      · exact Or.inl h
      · exact Or.inr ⟨x, by simp, h⟩
      · obtain ⟨e, he, het⟩ := h
        exact Or.inr ⟨e, List.mem_cons_of_mem _ he, het⟩
    · rintro (h | ⟨e, he, het⟩)
      · exact Or.inl (Or.inl h)
      · rcases List.mem_cons.mp he with h1 | h1
        · subst h1; exact Or.inl (Or.inr het)
        · exact Or.inr ⟨e, h1, het⟩

theorem nodup_hsInsert {s : List PageListEntry} {x : PageListEntry}
    (h : nodupTitles s) : nodupTitles (hsInsert s x) := by
  unfold hsInsert
  by_cases hc : s.any (fun e => e.sameKey x) = true
  · rw [if_pos hc]; exact h
  · rw [if_neg hc]
    unfold nodupTitles titlesOf at *
    simp only [List.map_append, List.map_cons, List.map_nil]
    refine List.Nodup.append h (List.nodup_singleton _) ?_
    intro a ha hmem
    simp only [List.mem_singleton] at hmem
    subst hmem
    rcases List.mem_map.mp ha with ⟨e, he, het⟩
    apply hc
    simp only [List.any_eq_true, PageListEntry.sameKey, decide_eq_true_eq]
    exact ⟨e, he, het⟩

theorem nodup_foldl_hsInsert {xs : List PageListEntry} {acc : List PageListEntry}
    (h : nodupTitles acc) : nodupTitles (xs.foldl hsInsert acc) := by
  induction xs generalizing acc with
  | nil => exact h
  | cons x xs ih => exact ih (nodup_hsInsert h)

theorem nodupTitles_unique {s : List PageListEntry} (h : nodupTitles s)
    {a b : PageListEntry} (ha : a ∈ s) (hb : b ∈ s) (hab : a.title = b.title) :
    a = b := by
  unfold nodupTitles titlesOf at h
  induction s with
  | nil => cases ha
  | cons x xs ih =>
    simp only [List.map_cons, List.nodup_cons] at h
    rcases List.mem_cons.mp ha with h1 | h1 <;> rcases List.mem_cons.mp hb with h2 | h2
    · rw [h1, h2]
    · exfalso
      subst h1
      exact h.1 (List.mem_map.mpr ⟨b, h2, hab.symm⟩)
    · exfalso
      subst h2
      exact h.1 (List.mem_map.mpr ⟨a, h1, hab⟩)
    · exact ih h.2 h1 h2

/-- C1 counterexample: union of two same-wiki single-entry lists over the same
title keeps the earlier (self) entry's metadata, because `PageList::union`
inserts with `HashSet::insert` semantics, not `replace`; the claim predicts the
other list's metadata (page_id 2) would overwrite, but the result still holds
page_id 1. -/
theorem c1_union_counterexample :
    cexSelf.union cexOther none = Except.ok cexSelf ∧
      cexSelfEntry.page_id = some 1 ∧ cexOtherEntry.page_id = some 2 ∧
      cexSelfEntry ≠ cexOtherEntry := by
  refine ⟨rfl, rfl, rfl, ?_⟩
  decide

/-- C1 as amended: for same-wiki lists, `PageList::union` replaces self's
entries with the other's when self is empty; otherwise it inserts each of the
other's entries with `HashSet::insert` (keep-existing) semantics, so that for a
title present in both lists the earlier (self) entry and its metadata are
retained, while titles only in the other list are added. -/
theorem c1_union_insert_semantics (A B : PageList) (w : String)
    (plat : Option Platform) (hA : A.wiki = some w) (hB : B.wiki = some w) :
    ∃ res, A.union B plat = Except.ok res ∧ res.wiki = A.wiki ∧
      (A.entries = [] → res.entries = B.entries) ∧
      (A.entries ≠ [] →
        (∀ e ∈ A.entries, e ∈ res.entries) ∧
        (∀ e ∈ res.entries, e ∈ A.entries ∨ e ∈ B.entries) ∧
        (∀ t, (∃ e ∈ res.entries, e.title = t) ↔
          (∃ e ∈ A.entries, e.title = t) ∨ (∃ e ∈ B.entries, e.title = t)) ∧
        (nodupTitles A.entries → nodupTitles res.entries) ∧
        (nodupTitles A.entries → ∀ eS ∈ A.entries, ∀ eR ∈ res.entries,
          eR.title = eS.title → eR = eS)) := by
  have hcheck : A.check_before_merging B plat = Except.ok B := by
    unfold PageList.check_before_merging
    rw [hA]
    simp [hA, hB]
  have hu : A.union B plat =
      if A.entries.isEmpty then Except.ok { A with entries := B.entries }
      else Except.ok { A with entries := B.entries.foldl hsInsert A.entries } := by
    unfold PageList.union
    rw [hcheck]
  rw [hu]
  by_cases hemp : A.entries.isEmpty
  · rw [if_pos hemp]
    refine ⟨_, rfl, rfl, fun _ => rfl, fun hne => absurd (List.isEmpty_iff.mp hemp) hne⟩
  · rw [if_neg hemp]
    refine ⟨_, rfl, rfl, fun h => absurd (List.isEmpty_iff.mpr h) hemp, fun _ => ?_⟩
    refine ⟨fun e he => foldl_hsInsert_mem_of_mem he,
      fun e he => mem_foldl_hsInsert he,
      fun t => titles_foldl_hsInsert, fun hnd => nodup_foldl_hsInsert hnd,
      fun hnd eS hS eR hR hRS => ?_⟩
    have hndres : nodupTitles (B.entries.foldl hsInsert A.entries) :=
      nodup_foldl_hsInsert hnd
    exact nodupTitles_unique hndres hR (foldl_hsInsert_mem_of_mem hS) hRS

/-- Witness for the amended C1 theorem at concrete same-wiki lists. -/
theorem c1_union_insert_semantics_witness :
    ∃ res, cexSelf.union cexOther none = Except.ok res ∧ res.wiki = cexSelf.wiki ∧
      (cexSelf.entries = [] → res.entries = cexOther.entries) ∧
      (cexSelf.entries ≠ [] →
        (∀ e ∈ cexSelf.entries, e ∈ res.entries) ∧
        (∀ e ∈ res.entries, e ∈ cexSelf.entries ∨ e ∈ cexOther.entries) ∧
        (∀ t, (∃ e ∈ res.entries, e.title = t) ↔
          (∃ e ∈ cexSelf.entries, e.title = t) ∨ (∃ e ∈ cexOther.entries, e.title = t)) ∧
        (nodupTitles cexSelf.entries → nodupTitles res.entries) ∧
        (nodupTitles cexSelf.entries → ∀ eS ∈ cexSelf.entries, ∀ eR ∈ res.entries,
          eR.title = eS.title → eR = eS)) :=
  c1_union_insert_semantics cexSelf cexOther "enwiki" none rfl rfl

theorem check_before_merging_self_none {A B : PageList} (plat : Option Platform)
    (hA : A.wiki = none) :
    A.check_before_merging B plat =
      Except.error "PageList::check_before_merging self.wiki is not set" := by
  unfold PageList.check_before_merging
  rw [hA]

theorem check_before_merging_other_none {A B : PageList} (plat : Option Platform)
    {w : String} (hA : A.wiki = some w) (hB : B.wiki = none) :
    A.check_before_merging B plat =
      Except.error "PageList::check_before_merging pagelist.wiki is not set" := by
  unfold PageList.check_before_merging
  rw [hA]
  simp [hB]

theorem check_before_merging_differ_no_platform {A B : PageList} {w1 w2 : String}
    (hA : A.wiki = some w1) (hB : B.wiki = some w2) (hne : w1 ≠ w2) :
    A.check_before_merging B none =
      Except.error ("PageList::check_before_merging wikis are not identical: "
        ++ w1 ++ "/" ++ w2) := by
  unfold PageList.check_before_merging
  rw [hA]
  have : (some w1 : Option String) ≠ some w2 := by simp [hne]
  simp [hA, hB, this, Option.getD]

/-- C5: for each of the three set operations, a missing wiki tag on either side
is an error, and differing wiki tags with no Platform supplied produce the
error naming both wikis; in each case the operation returns before touching the
entry sets (the model returns no new state on error). -/
theorem c5_set_ops_wiki_errors (A B : PageList) (plat : Option Platform)
    (w w1 w2 : String) :
    (A.wiki = none →
      A.union B plat = Except.error "PageList::check_before_merging self.wiki is not set" ∧
      A.intersection B plat = Except.error "PageList::check_before_merging self.wiki is not set" ∧
      A.difference B plat = Except.error "PageList::check_before_merging self.wiki is not set") ∧
    (A.wiki = some w → B.wiki = none →
      A.union B plat = Except.error "PageList::check_before_merging pagelist.wiki is not set" ∧
      A.intersection B plat = Except.error "PageList::check_before_merging pagelist.wiki is not set" ∧
      A.difference B plat = Except.error "PageList::check_before_merging pagelist.wiki is not set") ∧
    (A.wiki = some w1 → B.wiki = some w2 → w1 ≠ w2 →
      A.union B none = Except.error
        ("PageList::check_before_merging wikis are not identical: " ++ w1 ++ "/" ++ w2) ∧
      A.intersection B none = Except.error
        ("PageList::check_before_merging wikis are not identical: " ++ w1 ++ "/" ++ w2) ∧
      A.difference B none = Except.error
        ("PageList::check_before_merging wikis are not identical: " ++ w1 ++ "/" ++ w2)) := by
  refine ⟨fun hA => ?_, fun hA hB => ?_, fun hA hB hne => ?_⟩
  · have h := check_before_merging_self_none (A := A) (B := B) plat hA
    refine ⟨?_, ?_, ?_⟩ <;>
      first
        | (unfold PageList.union; rw [h])
        | (unfold PageList.intersection; rw [h])
        | (unfold PageList.difference; rw [h])
  · have h := check_before_merging_other_none (A := A) (B := B) plat hA hB
    refine ⟨?_, ?_, ?_⟩ <;>
      first
        | (unfold PageList.union; rw [h])
        | (unfold PageList.intersection; rw [h])
        | (unfold PageList.difference; rw [h])
  · have h := check_before_merging_differ_no_platform hA hB hne
    refine ⟨?_, ?_, ?_⟩ <;>
      first
        | (unfold PageList.union; rw [h])
        | (unfold PageList.intersection; rw [h])
        | (unfold PageList.difference; rw [h])

/-- Witness for C5 at concrete lists: an untagged self errors, an untagged
other errors, and differing wikis with no Platform produce the two-wiki error
message. -/
theorem c5_set_ops_wiki_errors_witness :
    (cexNoWiki.union cexOther none =
      Except.error "PageList::check_before_merging self.wiki is not set") ∧
    (cexSelf.union cexNoWiki none =
      Except.error "PageList::check_before_merging pagelist.wiki is not set") ∧
    (cexSelf.difference cexWdList none =
      Except.error
        "PageList::check_before_merging wikis are not identical: enwiki/wikidatawiki") :=
  ⟨((c5_set_ops_wiki_errors cexNoWiki cexOther none "x" "x" "y").1 rfl).1,
   ((c5_set_ops_wiki_errors cexSelf cexNoWiki none "enwiki" "x" "y").2.1 rfl rfl).1,
   ((c5_set_ops_wiki_errors cexSelf cexWdList none "x" "enwiki" "wikidatawiki").2.2
      rfl rfl (by decide)).2.2⟩

theorem foldl_comb_nonempty (step : Combination → String → Combination)
    (hstep : ∀ acc s, acc ≠ Combination.none →
      step acc s = Combination.intersection (Combination.source s) acc) :
    ∀ (rest : List String) (L : List String), L ≠ [] →
      rest.foldl step (rightNestedIntersection L) =
        rightNestedIntersection (rest.reverse ++ L) := by
  intro rest
  induction rest with
  | nil => intro L hL; simp
  | cons s rest ih =>
    intro L hL
    have hrnL : rightNestedIntersection L ≠ Combination.none := by
      match L, hL with
      | [x], _ => simp [rightNestedIntersection]
      | x :: y :: ys, _ => simp [rightNestedIntersection]
    have hcons : Combination.intersection (Combination.source s) (rightNestedIntersection L) =
        rightNestedIntersection (s :: L) := by
      match L, hL with
      | [x], _ => rfl
      | x :: y :: ys, _ => rfl
    simp only [List.foldl_cons, hstep _ _ hrnL, hcons]
    rw [ih (s :: L) (by simp)]
    simp

/-- C3 counterexample: with no `source_combination` parameter and available
sources `categories, sparql` (in that order), `Platform::get_combination`
returns `Intersection(Source sparql, Source categories)` — the reversed,
right-nested tree — which differs from the left-leaning
`Intersection(Source categories, Source sparql)` the claim predicts. -/
theorem c3_get_combination_counterexample :
    cexPlatform.get_combination ["categories", "sparql"] =
      Combination.intersection (Combination.source "sparql") (Combination.source "categories") ∧
    Combination.intersection (Combination.source "sparql") (Combination.source "categories") ≠
      Combination.intersection (Combination.source "categories") (Combination.source "sparql") :=
  ⟨rfl, by decide⟩

/-- C3 as amended: when no `source_combination` parameter is given,
`Platform::get_combination` over a non-empty source list `s1, ..., sk` returns
the right-nested intersection over the reversed list,
`Intersection(Source sk, Intersection(..., Intersection(Source s2, Source s1)))`;
for a single source it returns `Source s1`. -/
theorem c3_get_combination_right_nested (p : Platform) (ss : List String)
    (hnp : p.has_param "source_combination" = false) (hne : ss ≠ []) :
    p.get_combination ss = rightNestedIntersection ss.reverse := by
  unfold Platform.get_combination Platform.get_param
  rw [hnp]
  simp only [Bool.false_eq_true, if_false]
  match ss, hne with
  | s1 :: rest, _ =>
    rw [List.foldl_cons]
    have h1 : (if Combination.none = Combination.none then Combination.source s1
        else Combination.intersection (Combination.source s1) Combination.none) =
          rightNestedIntersection [s1] := by
      simp [rightNestedIntersection]
    rw [h1, foldl_comb_nonempty _ ?hs rest [s1] (by simp)]
    case hs =>
      intro acc s hacc
      simp [hacc]
    simp

/-- Witness for the amended C3 theorem at a concrete platform and source
list. -/
theorem c3_get_combination_right_nested_witness :
    cexPlatform.get_combination ["categories", "sparql", "manual"] =
      rightNestedIntersection ["manual", "sparql", "categories"] :=
  c3_get_combination_right_nested cexPlatform ["categories", "sparql", "manual"]
    rfl (by decide)

/-- C4: `Platform::combine_results` evaluation rules — `Source(s)` returns the
stored result and errors when absent; a `Union` with a `None` child evaluates
to the other child's evaluation (either side); an `Intersection` with a `None`
child on either side errors; `Not(None, _)` errors; and `Not(X, None)` with
`X ≠ None` evaluates to `X`'s evaluation (`Not(None, None)` is covered by the
`Not(None, _)` error rule). -/
theorem c4_combine_results_rules (p : Platform) (results : List (String × PageList)) :
    (∀ s r, List.lookup s results = some r →
      p.combine_results results (Combination.source s) = Except.ok r) ∧
    (∀ s, List.lookup s results = Option.none →
      p.combine_results results (Combination.source s) =
        Except.error ("No result for source " ++ s)) ∧
    (∀ X, p.combine_results results (Combination.union Combination.none X) =
      p.combine_results results X) ∧
    (∀ X, p.combine_results results (Combination.union X Combination.none) =
      p.combine_results results X) ∧
    (∀ X, p.combine_results results (Combination.intersection Combination.none X) =
      Except.error "Intersection with Combination::None found") ∧
    (∀ X, p.combine_results results (Combination.intersection X Combination.none) =
      Except.error "Intersection with Combination::None found") ∧
    (∀ X, p.combine_results results (Combination.not Combination.none X) =
      Except.error "Not with Combination::None found") ∧
    (∀ X, X ≠ Combination.none →
      p.combine_results results (Combination.not X Combination.none) =
        p.combine_results results X) := by
  refine ⟨?_, ?_, ?_, ?_, ?_, ?_, ?_, ?_⟩
  · intro s r h
    unfold Platform.combine_results
    rw [h]
  · intro s h
    unfold Platform.combine_results
    rw [h]
  · intro X; cases X <;> rfl
  · intro X; cases X <;> rfl
  · intro X; cases X <;> rfl
  · intro X; cases X <;> rfl
  · intro X; cases X <;> rfl
  · intro X hX; cases X with
    | none => exact absurd rfl hX
    | source s => rfl
    | intersection a b => rfl
    | union a b => rfl
    | not a b => rfl

/-- Witness for C4 at a concrete result map: the stored `manual` result is
returned, a missing source errors, and the `None`-child rules fire. -/
theorem c4_combine_results_rules_witness :
    cexPlatform.combine_results c4Results (Combination.source "manual") =
      Except.ok cexSelf ∧
    cexPlatform.combine_results c4Results (Combination.source "pagepile") =
      Except.error "No result for source pagepile" ∧
    cexPlatform.combine_results c4Results
        (Combination.union Combination.none (Combination.source "manual")) =
      cexPlatform.combine_results c4Results (Combination.source "manual") ∧
    cexPlatform.combine_results c4Results
        (Combination.not (Combination.source "manual") Combination.none) =
      cexPlatform.combine_results c4Results (Combination.source "manual") :=
  ⟨(c4_combine_results_rules cexPlatform c4Results).1 "manual" cexSelf rfl,
   (c4_combine_results_rules cexPlatform c4Results).2.1 "pagepile" rfl,
   (c4_combine_results_rules cexPlatform c4Results).2.2.1 (Combination.source "manual"),
   (c4_combine_results_rules cexPlatform c4Results).2.2.2.2.2.2.2
     (Combination.source "manual") (by decide)⟩

/-- C7 failing-input evaluation: on a wikidatawiki list under the Title sort,
comparing the label-less entry titled `Z` against the label-less entry titled
`A` yields `Equal` in the code — `compare_by_label` falls back to
`self.title.pretty()` for BOTH sides — whereas the claim (each entry
represented by its own pretty title) requires `Greater` (`"z" > "a"`); the
descending flag then also returns `Equal` instead of `Less`. -/
theorem c7_compare_by_label_bug :
    c7EntryZ.compare c7EntryA (PageListSort.title false) true false = Ordering.eq ∧
    c7EntryZ.compare c7EntryA (PageListSort.title true) true false = Ordering.eq ∧
    cmpStr (toLowerStr "Z") (toLowerStr "A") = Ordering.gt ∧
    Ordering.eq ≠ Ordering.gt := by
  refine ⟨by decide, by decide, by decide, by decide⟩

/-- C8 counterexample: with top-level credentials only (no `mysql` array) the
constructor's loop `for _ in 1..MAX_CONCURRENT_DB_CONNECTIONS` runs 9 times,
not 10, so exactly 9 slots are created; with a `mysql` entry whose
`connections` is 3, the loop `for _ in 1..connections` creates 2 slots, not
3. -/
theorem c8_pool_counterexample :
    new_from_config_db_pool c8ConfigPlain = Except.ok (List.replicate 9 ("u", "p")) ∧
    (List.replicate 9 ("u", "p")).length = 9 ∧
    new_from_config_db_pool c8ConfigMysql = Except.ok (List.replicate 2 ("mu", "mp")) ∧
    (List.replicate 2 ("mu", "mp")).length = 2 ∧
    (9 : Nat) ≠ 10 ∧ (2 : Nat) ≠ 3 :=
  ⟨rfl, rfl, rfl, rfl, by decide, by decide⟩

/-- C8 as amended: `AppState::new_from_config` creates exactly 9 credential
slots (loop `1..10`) from the top-level user/password when the config has no
`mysql` array, and otherwise exactly `connections - 1` slots for each entry of
the `mysql` array (`connections` defaulting to 5 when not a u64), erroring when
the total is zero. -/
theorem c8_pool_sizes (config : Json) (u p : String)
    (hu : (config.get "user").as_str = some u)
    (hp : (config.get "password").as_str = some p) :
    ((config.get "mysql").as_array = Option.none →
      new_from_config_db_pool config = Except.ok (List.replicate 9 (u, p))) ∧
    (∀ ups pool, (config.get "mysql").as_array = some ups →
      new_from_config_db_pool.buildMysqlPool ups = Except.ok pool →
      new_from_config_db_pool config =
        if pool.isEmpty then Except.error "No database access config available"
        else Except.ok pool) ∧
    (∀ up rest user pass conn tail,
      (up.at 0).as_str = some user →
      (up.at 1).as_str = some pass →
      ((up.at 2).as_u64).getD 5 = conn →
      new_from_config_db_pool.buildMysqlPool rest = Except.ok tail →
      new_from_config_db_pool.buildMysqlPool (up :: rest) =
        Except.ok (List.replicate (conn - 1) (user, pass) ++ tail)) := by
  refine ⟨?_, ?_, ?_⟩
  · intro hm
    unfold new_from_config_db_pool
    rw [hu, hp, hm]
    rfl
  · intro ups pool hm hbuild
    unfold new_from_config_db_pool
    rw [hu, hp, hm]
    dsimp only
    rw [hbuild]
  · intro up rest user pass conn tail h0 h1 h2 htail
    unfold new_from_config_db_pool.buildMysqlPool
    rw [h0]
    dsimp only
    rw [h1]
    dsimp only
    rw [htail, h2]

/-- Witness for the amended C8 theorem at the two concrete configs. -/
theorem c8_pool_sizes_witness :
    new_from_config_db_pool c8ConfigPlain = Except.ok (List.replicate 9 ("u", "p")) ∧
    new_from_config_db_pool.buildMysqlPool
        [Json.arr [Json.str "mu", Json.str "mp", Json.num 3, Json.str "tool"]] =
      Except.ok (List.replicate 2 ("mu", "mp") ++ []) :=
  ⟨(c8_pool_sizes c8ConfigPlain "u" "p" rfl rfl).1 rfl,
   (c8_pool_sizes c8ConfigPlain "u" "p" rfl rfl).2.2
     (Json.arr [Json.str "mu", Json.str "mp", Json.num 3, Json.str "tool"])
     [] "mu" "mp" 3 [] rfl rfl rfl rfl⟩

/-- C9 failing-input evaluation: with an always-failing connection oracle,
`AppState::get_wiki_db_connection` makes 16 `Conn::new` attempts — the
`loops_left == 0` break is checked only after a 16th failed attempt — while the
claim (and the function's own error message, which quotes
`MYSQL_MAX_CONNECTION_ATTEMPTS`) says 15; the 15 sleeps between the failed
attempts start at 100 ms, double, and are capped at 5000 ms, the final error
names the wiki, host, and schema, and on a first-attempt success against
commonswiki the session statement is issued before the connection is
returned. -/
theorem c9_retry_loop_bug :
    get_wiki_db_connection (fun _ => false) c9Config "enwiki" =
      Except.ok
        ⟨16,
         [100, 200, 400, 800, 1600, 3200, 5000, 5000, 5000, 5000, 5000, 5000,
          5000, 5000, 5000],
         Except.error (connErrMsg "enwiki" "127.0.0.1" "enwiki_p")⟩ ∧
    connErrMsg "enwiki" "127.0.0.1" "enwiki_p" =
      "Could not connect to database replica for " ++ squo ++ "enwiki" ++ squo
        ++ " on " ++ squo ++ "127.0.0.1" ++ squo ++ "/" ++ squo ++ "enwiki_p"
        ++ squo ++ " after 15 attempts" ∧
    (16 : Nat) ≠ 15 ∧
    get_wiki_db_connection (fun _ => true) c9Config "commonswiki" =
      Except.ok ⟨1, [], Except.ok ⟨["SET SESSION group_concat_max_len = 1000000000"]⟩⟩ ∧
    get_wiki_db_connection (fun _ => true) c9Config "enwiki" =
      Except.ok ⟨1, [], Except.ok ⟨[]⟩⟩ :=
  ⟨rfl, rfl, by decide, rfl, rfl⟩

theorem titles_hsReplace_of_mem {s : List PageListEntry} {x : PageListEntry}
    (hx : ∃ e ∈ s, e.title = x.title) (t : Title) :
    (∃ e ∈ hsReplace s x, e.title = t) ↔ ∃ e ∈ s, e.title = t := by
  unfold hsReplace
  constructor
  · rintro ⟨e, he, het⟩
    rcases List.mem_append.mp he with h1 | h1
    · exact ⟨e, (List.mem_filter.mp h1).1, het⟩
    · simp only [List.mem_singleton] at h1
      subst h1
      obtain ⟨a, ha, hat⟩ := hx
      exact ⟨a, ha, by rw [hat, het]⟩
  · rintro ⟨e, he, het⟩
    by_cases hkey : e.sameKey x = true
    · refine ⟨x, List.mem_append_right _ (by simp), ?_⟩
      simp only [PageListEntry.sameKey, decide_eq_true_eq] at hkey
      rw [← hkey, het]
    · refine ⟨e, List.mem_append_left _ (List.mem_filter.mpr ⟨he, ?_⟩), het⟩
      simp only [hkey]
      decide

/-- C10: `PageList::annotate_batch_results` preserves the set of titles: no
entry is added for a result row whose (title, namespace) is not already
present, no entry is removed, and matched entries are re-inserted under the
same title (the mutator `f` cannot change the private `title` field, hence the
`hf` hypothesis); the wiki tag is untouched. -/
theorem c10_annotate_batch_results_frame (pl : PageList) (rows : List Row)
    (ct cn : Nat) (f : Row → PageListEntry → PageListEntry)
    (hf : ∀ r e, (f r e).title = e.title) :
    (∀ t, (∃ e ∈ (pl.annotate_batch_results rows ct cn f).entries, e.title = t) ↔
      ∃ e ∈ pl.entries, e.title = t) ∧
    (pl.annotate_batch_results rows ct cn f).wiki = pl.wiki := by
  unfold PageList.annotate_batch_results
  induction rows generalizing pl with
  | nil => exact ⟨fun t => Iff.rfl, rfl⟩
  | cons row rows ih =>
    simp only [List.foldl_cons]
    cases hrow : entry_from_row row ct cn with
    | none =>
      dsimp only
      exact ih pl
    | some probe =>
      dsimp only
      cases hget : hsGet pl.entries probe with
      | none =>
        dsimp only
        exact ih pl
      | some e =>
        dsimp only
        unfold hsGet at hget
        have he : e ∈ pl.entries := List.mem_of_find?_eq_some hget
        have hkey := List.find?_some hget
        refine ⟨fun t => ?_, ?_⟩
        · rw [((ih (pl.add_entry (f row e))).1 t)]
          unfold PageList.add_entry
          simp only
          exact titles_hsReplace_of_mem ⟨e, he, by rw [hf row e]⟩ t
        · rw [(ih (pl.add_entry (f row e))).2]
          rfl

/-- Concrete rows used by the C10 witness: one row matching the `Foo` title in
namespace 0, one unparseable row. -/
def c10Rows : List Row :=
  [[MyValue.bytes "Foo", MyValue.int 0], [MyValue.other, MyValue.other]]

/-- Witness for C10 at a concrete list, rows, and annotator. -/
theorem c10_annotate_batch_results_frame_witness :
    ((∃ e ∈ (cexSelf.annotate_batch_results c10Rows 0 1
        (fun _ e => { e with page_bytes := some 7 })).entries, e.title = cexTitle) ↔
      ∃ e ∈ cexSelf.entries, e.title = cexTitle) ∧
    (cexSelf.annotate_batch_results c10Rows 0 1
        (fun _ e => { e with page_bytes := some 7 })).wiki = cexSelf.wiki :=
  ⟨(c10_annotate_batch_results_frame cexSelf c10Rows 0 1
      (fun _ e => { e with page_bytes := some 7 }) (fun _ _ => rfl)).1 cexTitle,
   (c10_annotate_batch_results_frame cexSelf c10Rows 0 1
      (fun _ e => { e with page_bytes := some 7 }) (fun _ _ => rfl)).2⟩

theorem chunkGo_flatten {α : Type} :
    ∀ (fuel n : Nat) (l : List α), 0 < n → l.length ≤ fuel →
      (chunkGo fuel n l).flatten = l := by
  intro fuel
  induction fuel with
  | zero =>
    intro n l _ hlen
    have : l = [] := List.eq_nil_of_length_eq_zero (Nat.le_zero.mp hlen)
    subst this
    rfl
  | succ fuel ih =>
    intro n l hn hlen
    cases l with
    | nil => rfl
    | cons x xs =>
      show (((x :: xs).take n) :: chunkGo fuel n ((x :: xs).drop n)).flatten = x :: xs
      rw [List.flatten_cons, ih n ((x :: xs).drop n) hn ?hrec, List.take_append_drop]
      case hrec =>
        rw [List.length_drop]
        simp only [List.length_cons] at hlen ⊢
        omega

theorem chunkGo_length_le {α : Type} :
    ∀ (fuel n : Nat) (l : List α) (c : List α), c ∈ chunkGo fuel n l → c.length ≤ n := by
  intro fuel
  induction fuel with
  | zero => intro n l c hc; cases hc
  | succ fuel ih =>
    intro n l c hc
    cases l with
    | nil => cases hc
    | cons x xs =>
      rcases List.mem_cons.mp hc with h1 | h1
      · subst h1
        rw [List.length_take]
        exact Nat.min_le_left _ _
      · exact ih n _ c h1

theorem chunkList_flatten {α : Type} (n : Nat) (l : List α) (hn : 0 < n) :
    (chunkList n l).flatten = l := by
  unfold chunkList
  rw [if_neg (Nat.pos_iff_ne_zero.mp hn)]
  exact chunkGo_flatten l.length n l hn (Nat.le_refl _)

theorem chunkList_length_le {α : Type} {n : Nat} {l c : List α}
    (hc : c ∈ chunkList n l) : c.length ≤ n := by
  unfold chunkList at hc
  split at hc
  · cases hc
  · exact chunkGo_length_le l.length n l c hc

theorem mem_prep_quote {chunk : List String} {s : String} :
    s ∈ (prep_quote chunk).2 ↔ ∃ x ∈ chunk, trimStr x = s ∧ s ≠ "" := by
  unfold prep_quote
  simp only [List.mem_filterMap]
  constructor
  · rintro ⟨x, hx, hfx⟩
    by_cases hb : trimStr x = ""
    · rw [if_pos hb] at hfx; cases hfx
    · rw [if_neg hb] at hfx
      cases hfx
      exact ⟨x, hx, rfl, hb⟩
  · rintro ⟨x, hx, hxs, hs⟩
    refine ⟨x, hx, ?_⟩
    rw [if_neg (by rw [hxs]; exact hs), hxs]

theorem prep_quote_length_le (chunk : List String) :
    (prep_quote chunk).2.length ≤ chunk.length :=
  List.length_filterMap_le _ _

theorem mem_group_bucket {entries : List PageListEntry} {p : Int × List String}
    {x : String} (hp : p ∈ group_by_namespace entries) (hx : x ∈ p.2) :
    ∃ e ∈ entries, e.title.namespace_id = p.1 ∧ e.title.with_underscores = x := by
  unfold group_by_namespace at hp
  rcases List.mem_map.mp hp with ⟨nsid, _, hpe⟩
  subst hpe
  simp only at hx
  rcases List.mem_filterMap.mp hx with ⟨e, he, hfe⟩
  by_cases hns : e.title.namespace_id = nsid
  · rw [if_pos hns] at hfe
    cases hfe
    exact ⟨e, he, hns, rfl⟩
  · rw [if_neg hns] at hfe
    cases hfe

theorem group_covers {entries : List PageListEntry} {e : PageListEntry}
    (he : e ∈ entries) :
    ∃ p ∈ group_by_namespace entries,
      p.1 = e.title.namespace_id ∧ e.title.with_underscores ∈ p.2 := by
  unfold group_by_namespace
  have hkey : e.title.namespace_id ∈ (entries.map (fun e => e.title.namespace_id)).dedup :=
    List.mem_dedup.mpr (List.mem_map.mpr ⟨e, he, rfl⟩)
  refine ⟨_, List.mem_map.mpr ⟨e.title.namespace_id, hkey, rfl⟩, rfl, ?_⟩
  exact List.mem_filterMap.mpr ⟨e, he, by rw [if_pos rfl]⟩

/-- C6 counterexample: a list holding the single empty-named title in namespace
0 batched with chunk size 1 produces one fragment with an empty parameter list
(`prep_quote` trims each title and drops blanks), so the union of the
fragments' parameter titles is empty while the entry-title set is not: the
claimed equality fails. -/
theorem c6_to_sql_batches_counterexample :
    c6EmptyTitleList.to_sql_batches 1 =
      [("(page_namespace=0 AND page_title IN())", [])] ∧
    (∃ e ∈ c6EmptyTitleList.entries, e.title.with_underscores = "") ∧
    ¬ ∃ b ∈ c6EmptyTitleList.to_sql_batches 1, "" ∈ b.2 := by
  refine ⟨rfl, ⟨{ title := ⟨0, ""⟩ }, by simp [c6EmptyTitleList], rfl⟩, ?_⟩
  rintro ⟨b, hb, hmem⟩
  have hb2 : b = ("(page_namespace=0 AND page_title IN())", ([] : List String)) :=
    List.mem_singleton.mp hb
  subst hb2
  exact List.not_mem_nil _ hmem

/-- C6 as amended: for every PageList and chunk size `n > 0`,
`to_sql_batches(n)` emits per namespace id fragments
`(page_namespace=<nsid> AND page_title IN(?,…))` whose parameter lists hold at
most `n` titles, each parameter being the trimmed underscore form of an entry
title of that namespace; the union of all parameter lists equals the set of
trimmed underscore-form entry titles that are non-blank (blank ones are dropped
by `prep_quote`); the empty list yields no batches. -/
theorem c6_to_sql_batches_bounds (pl : PageList) (n : Nat) (hn : 0 < n) :
    (pl.entries = [] → pl.to_sql_batches n = []) ∧
    (∀ b ∈ pl.to_sql_batches n, b.2.length ≤ n) ∧
    (∀ b ∈ pl.to_sql_batches n, ∃ nsid,
      b.1 = "(page_namespace=" ++ toString nsid ++ " AND page_title IN("
        ++ get_questionmarks b.2.length ++ "))" ∧
      ∀ s ∈ b.2, ∃ e ∈ pl.entries, e.title.namespace_id = nsid ∧
        trimStr e.title.with_underscores = s ∧ s ≠ "") ∧
    (∀ s, (∃ b ∈ pl.to_sql_batches n, s ∈ b.2) ↔
      ∃ e ∈ pl.entries, trimStr e.title.with_underscores = s ∧ s ≠ "") := by
  have hbmem : ∀ b ∈ pl.to_sql_batches n, ∃ p ∈ group_by_namespace pl.entries,
      ∃ chunk ∈ chunkList n p.2,
        b = ("(page_namespace=" ++ toString p.1 ++ " AND page_title IN("
          ++ (prep_quote chunk).1 ++ "))", (prep_quote chunk).2) := by
    intro b hb
    unfold PageList.to_sql_batches at hb
    split at hb
    · cases hb
    · rcases List.mem_flatten.mp hb with ⟨inner, hinner, hbi⟩
      rcases List.mem_map.mp hinner with ⟨p, hp, hpe⟩
      subst hpe
      rcases List.mem_map.mp hbi with ⟨chunk, hchunk, hce⟩
      exact ⟨p, hp, chunk, hchunk, hce.symm⟩
  refine ⟨?_, ?_, ?_, ?_⟩
  · intro h
    unfold PageList.to_sql_batches
    rw [if_pos (List.isEmpty_iff.mpr h)]
  · intro b hb
    rcases hbmem b hb with ⟨p, hp, chunk, hchunk, hbe⟩
    rw [hbe]
    calc (prep_quote chunk).2.length ≤ chunk.length := prep_quote_length_le chunk
      _ ≤ n := chunkList_length_le hchunk
  · intro b hb
    rcases hbmem b hb with ⟨p, hp, chunk, hchunk, hbe⟩
    refine ⟨p.1, by rw [hbe]; rfl, ?_⟩
    intro s hs
    rw [hbe] at hs
    rcases mem_prep_quote.mp hs with ⟨x, hx, hxs, hsne⟩
    have hxp : x ∈ p.2 := by
      rw [← chunkList_flatten n p.2 hn]
      exact List.mem_flatten.mpr ⟨chunk, hchunk, hx⟩
    rcases mem_group_bucket hp hxp with ⟨e, he, hens, heu⟩
    exact ⟨e, he, hens, by rw [heu, hxs], hsne⟩
  · intro s
    constructor
    · rintro ⟨b, hb, hs⟩
      rcases hbmem b hb with ⟨p, hp, chunk, hchunk, hbe⟩
      rw [hbe] at hs
      rcases mem_prep_quote.mp hs with ⟨x, hx, hxs, hsne⟩
      have hxp : x ∈ p.2 := by
        rw [← chunkList_flatten n p.2 hn]
        exact List.mem_flatten.mpr ⟨chunk, hchunk, hx⟩
      rcases mem_group_bucket hp hxp with ⟨e, he, _, heu⟩
      exact ⟨e, he, by rw [heu, hxs], hsne⟩
    · rintro ⟨e, he, hes, hsne⟩
      rcases group_covers he with ⟨p, hp, hpns, hmem⟩
      have : e.title.with_underscores ∈ (chunkList n p.2).flatten := by
        rw [chunkList_flatten n p.2 hn]
        exact hmem
      rcases List.mem_flatten.mp this with ⟨chunk, hchunk, hx⟩
      refine ⟨("(page_namespace=" ++ toString p.1 ++ " AND page_title IN("
        ++ (prep_quote chunk).1 ++ "))", (prep_quote chunk).2), ?_, ?_⟩
      · unfold PageList.to_sql_batches
        rw [if_neg ?hne]
        case hne =>
          intro hemp
          rw [List.isEmpty_iff.mp hemp] at he
          cases he
        refine List.mem_flatten.mpr ⟨_, List.mem_map.mpr ⟨p, hp, rfl⟩, ?_⟩
        exact List.mem_map.mpr ⟨chunk, hchunk, rfl⟩
      · exact mem_prep_quote.mpr ⟨e.title.with_underscores, hx, hes, hsne⟩

/-- Witness for the amended C6 theorem at a concrete mixed-namespace list. -/
theorem c6_to_sql_batches_bounds_witness :
    ((PageList.mk (some "enwiki") [{ title := ⟨0, "A b"⟩ }, { title := ⟨0, "C"⟩ },
        { title := ⟨5, "D"⟩ }]).entries = [] →
      (PageList.mk (some "enwiki") [{ title := ⟨0, "A b"⟩ }, { title := ⟨0, "C"⟩ },
        { title := ⟨5, "D"⟩ }]).to_sql_batches 2 = []) ∧
    (∀ b ∈ (PageList.mk (some "enwiki") [{ title := ⟨0, "A b"⟩ }, { title := ⟨0, "C"⟩ },
        { title := ⟨5, "D"⟩ }]).to_sql_batches 2, b.2.length ≤ 2) := by
  refine ⟨(c6_to_sql_batches_bounds _ 2 (by decide)).1, (c6_to_sql_batches_bounds _ 2 (by decide)).2.1⟩

theorem word_not_ws {c : Char} (h : isWordChar c = true) : c.isWhitespace = false := by
  by_contra hws
  rw [Bool.not_eq_false] at hws
  simp only [Char.isWhitespace, Bool.or_eq_true, decide_eq_true_eq] at hws
  rcases hws with ((h1 | h1) | h1) | h1 <;> (subst h1; exact absurd h (by decide))

theorem tokF_nil : ∀ n, tokF n [] = [] := by
  intro n; cases n <;> rfl

theorem length_dropWhile_le (p : Char → Bool) (l : List Char) :
    (l.dropWhile p).length ≤ l.length :=
  (List.dropWhile_sublist p).length_le

theorem tokF_fuel : ∀ (n : Nat) (l : List Char) (m : Nat),
    l.length ≤ n → l.length ≤ m → tokF n l = tokF m l := by
  intro n
  induction n with
  | zero =>
    intro l m hn _
    have hl : l = [] := List.eq_nil_of_length_eq_zero (Nat.le_zero.mp hn)
    subst hl
    rw [tokF_nil, tokF_nil]
  | succ n ih =>
    intro l m hn hm
    cases l with
    | nil => rw [tokF_nil, tokF_nil]
    | cons c rest =>
      cases m with
      | zero => simp at hm
      | succ m =>
        have hrn : rest.length ≤ n := by
          simp only [List.length_cons] at hn; omega
        have hrm : rest.length ≤ m := by
          simp only [List.length_cons] at hm; omega
        simp only [tokF]
        by_cases hws : c.isWhitespace = true
        · rw [if_pos hws, if_pos hws]
          exact ih rest m hrn hrm
        · rw [if_neg hws, if_neg hws]
          by_cases hw : isWordChar c = true
          · rw [if_pos hw, if_pos hw]
            have hd1 : (rest.dropWhile isWordChar).length ≤ rest.length :=
              length_dropWhile_le _ _
            rcases hrest1 : rest.dropWhile isWordChar with _ | ⟨q, rest2⟩
            · dsimp only
              rw [tokF_nil, tokF_nil]
            · rcases rest2 with _ | ⟨c2, r3⟩
              · rw [hrest1] at hd1
                simp only [List.length_cons, List.length_nil] at hd1
                have hq1 := ih [q] m (by simpa using Nat.le_trans hd1 hrn)
                  (by simpa using Nat.le_trans hd1 hrm)
                dsimp only
                rw [hq1]
              · rw [hrest1] at hd1
                simp only [List.length_cons] at hd1
                have hq : (q :: c2 :: r3).length ≤ rest.length := by
                  simp only [List.length_cons]; omega
                have hr3 : (r3.dropWhile isWordChar).length ≤ r3.length :=
                  length_dropWhile_le _ _
                have h1 := ih (q :: c2 :: r3) m (Nat.le_trans hq hrn) (Nat.le_trans hq hrm)
                have h2 := ih (r3.dropWhile isWordChar) m
                  (by simp only [List.length_cons] at hq ⊢
                      exact Nat.le_trans (Nat.le_trans hr3 (by omega)) hrn)
                  (by simp only [List.length_cons] at hq ⊢
                      exact Nat.le_trans (Nat.le_trans hr3 (by omega)) hrm)
                dsimp only
                by_cases hcond : q = aposChar ∧ isWordChar c2 = true
                · rw [if_pos hcond, if_pos hcond, h2]
                · rw [if_neg hcond, if_neg hcond, h1]
          · rw [if_neg hw, if_neg hw]
            exact congrArg _ (ih rest m hrn hrm)

theorem tok_eq_tokF {n : Nat} {l : List Char} (h : l.length ≤ n) : tokF n l = tok l :=
  tokF_fuel n l l.length h (Nat.le_refl _)

theorem tok_cons_space {c : Char} {r : List Char} (h : c.isWhitespace = true) :
    tok (c :: r) = tok r := by
  show tokF (r.length + 1) (c :: r) = tok r
  simp only [tokF, if_pos h]
  rfl

theorem tok_cons_other {c : Char} {r : List Char} (hw : isWordChar c = false)
    (hs : c.isWhitespace = false) :
    tok (c :: r) = String.mk [c] :: tok r := by
  show tokF (r.length + 1) (c :: r) = String.mk [c] :: tok r
  simp only [tokF]
  rw [if_neg (by rw [hs]; exact Bool.false_ne_true), if_neg (by rw [hw]; exact Bool.false_ne_true)]
  rfl

theorem tailok_head_not_word {d : Char}
    (hd : d = ' ' ∨ d = '(' ∨ d = ')') : isWordChar d = false := by
  rcases hd with rfl | rfl | rfl <;> decide

theorem tok_word {w : List Char} (hne : w ≠ []) (hall : ∀ c ∈ w, isWordChar c = true)
    {b : List Char} (hb : TailOk b) : tok (w ++ b) = String.mk w :: tok b := by
  rcases w with _ | ⟨c, w1⟩
  · exact absurd rfl hne
  have hcw : isWordChar c = true := hall c (by simp)
  have hws : ¬ c.isWhitespace = true := by rw [word_not_ws hcw]; exact Bool.false_ne_true
  have hall1 : ∀ x ∈ w1, isWordChar x = true := fun x hx => hall x (by simp [hx])
  have htake : (w1 ++ b).takeWhile isWordChar = w1 := by
    rw [List.takeWhile_append_of_pos hall1]
    rcases hb with rfl | ⟨d, r, rfl, hd⟩
    · simp
    · have hdw : ¬ isWordChar d = true := by
        rw [tailok_head_not_word hd]; exact Bool.false_ne_true
      rw [List.takeWhile_cons_of_neg hdw, List.append_nil]
  have hdrop : (w1 ++ b).dropWhile isWordChar = b := by
    rw [List.dropWhile_append]
    have h1 : w1.dropWhile isWordChar = [] := by
      rw [List.dropWhile_eq_nil_iff]
      intro x hx
      exact hall1 x hx
    rw [h1]
    simp only [List.isEmpty_nil, if_true]
    rcases hb with rfl | ⟨d, r, rfl, hd⟩
    · rfl
    · have hdw : ¬ isWordChar d = true := by
        rw [tailok_head_not_word hd]; exact Bool.false_ne_true
      rw [List.dropWhile_cons_of_neg hdw]
  show tokF ((c :: (w1 ++ b)).length) (c :: (w1 ++ b)) = _
  simp only [List.length_cons, tokF]
  rw [if_neg hws, if_pos hcw, htake, hdrop]
  rcases hb with rfl | ⟨d, r, rfl, hd⟩
  · dsimp only
    rw [tokF_nil]
    rfl
  · rcases r with _ | ⟨c2, r3⟩
    · dsimp only
      have hlen : ([d] : List Char).length ≤ (w1 ++ [d]).length := by
        simp only [List.length_append]
        omega
      rw [tok_eq_tokF hlen]
    · dsimp only
      rw [if_neg ?hnapos]
      case hnapos =>
        rintro ⟨rfl, -⟩
        rcases hd with h1 | h1 | h1 <;> exact absurd h1 (by decide)
      have hlen : (d :: c2 :: r3).length ≤ (w1 ++ d :: c2 :: r3).length := by
        simp only [List.length_append]
        omega
      rw [tok_eq_tokF hlen]

theorem strMk_data (s : String) : String.mk s.data = s := rfl

theorem strData_space : (" " : String).data = [' '] := rfl

theorem sourceTokOk_cases {s : String} (h : sourceTokOk s = true) :
    s = "categories" ∨ s = "sparql" ∨ s = "manual" ∨ s = "pagepile" ∨ s = "wikidata" := by
  simp only [sourceTokOk, Bool.or_eq_true, decide_eq_true_eq] at h
  tauto

theorem source_word {s : String} (h : sourceTokOk s = true) :
    s.data ≠ [] ∧ ∀ c ∈ s.data, isWordChar c = true := by
  rcases sourceTokOk_cases h with rfl | rfl | rfl | rfl | rfl <;>
    exact ⟨by decide, by decide⟩

theorem source_ne_parens {s : String} (h : sourceTokOk s = true) :
    s ≠ "(" ∧ s ≠ ")" := by
  rcases sourceTokOk_cases h with rfl | rfl | rfl | rfl | rfl <;>
    exact ⟨by decide, by decide⟩

theorem source_trimLower {s : String} (h : sourceTokOk s = true) : trimLower s = s := by
  rcases sourceTokOk_cases h with rfl | rfl | rfl | rfl | rfl <;> decide

theorem op_nice : NiceTok "AND" ∧ NiceTok "OR" ∧ NiceTok "NOT" := by
  refine ⟨Or.inl ⟨by decide, by decide⟩, Or.inl ⟨by decide, by decide⟩,
    Or.inl ⟨by decide, by decide⟩⟩

theorem wf_compound_parts {a b : Combination} {t : Combination}
    (h : t = Combination.intersection a b ∨ t = Combination.union a b ∨
      t = Combination.not a b)
    (hw : WfComb t = true) : WfComb a = true ∧ WfComb b = true := by
  rcases h with rfl | rfl | rfl <;>
    · rw [WfComb] at hw
      exact And.imp id id (Bool.and_eq_true_iff.mp hw)

theorem toks_nice {t : Combination} (h : WfComb t = true) : ∀ x ∈ t.toks, NiceTok x := by
  induction t with
  | none => cases h
  | source s =>
    intro x hx
    simp only [Combination.toks, List.mem_singleton] at hx
    subst hx
    exact Or.inl (source_word h)
  | intersection a b iha ihb =>
    rw [WfComb, Bool.and_eq_true_iff] at h
    intro x hx
    simp only [Combination.toks, List.mem_cons, List.mem_append] at hx
    rcases hx with rfl | (hx | (rfl | (hx | (rfl | h0))))
    · exact Or.inr (Or.inl rfl)
    · exact iha h.1 x hx
    · exact op_nice.1
    · exact ihb h.2 x hx
    · exact Or.inr (Or.inr rfl)
    · exact absurd h0 (List.not_mem_nil x)
  | union a b iha ihb =>
    rw [WfComb, Bool.and_eq_true_iff] at h
    intro x hx
    simp only [Combination.toks, List.mem_cons, List.mem_append] at hx
    rcases hx with rfl | (hx | (rfl | (hx | (rfl | h0))))
    · exact Or.inr (Or.inl rfl)
    · exact iha h.1 x hx
    · exact op_nice.2.1
    · exact ihb h.2 x hx
    · exact Or.inr (Or.inr rfl)
    · exact absurd h0 (List.not_mem_nil x)
  | not a b iha ihb =>
    rw [WfComb, Bool.and_eq_true_iff] at h
    intro x hx
    simp only [Combination.toks, List.mem_cons, List.mem_append] at hx
    rcases hx with rfl | (hx | (rfl | (hx | (rfl | h0))))
    · exact Or.inr (Or.inl rfl)
    · exact iha h.1 x hx
    · exact op_nice.2.2
    · exact ihb h.2 x hx
    · exact Or.inr (Or.inr rfl)
    · exact absurd h0 (List.not_mem_nil x)

theorem nice_data_ne_nil {x : String} (h : NiceTok x) : x.data ≠ [] := by
  rcases h with ⟨hne, _⟩ | rfl | rfl
  · exact hne
  · decide
  · decide

theorem nice_nonws {x : String} (h : NiceTok x) :
    ∀ c ∈ x.data, c.isWhitespace = false := by
  rcases h with ⟨_, hall⟩ | rfl | rfl
  · exact fun c hc => word_not_ws (hall c hc)
  · decide
  · decide

theorem data_sjoin_cons_cons (x y : String) (rest : List String) :
    (sjoin (x :: y :: rest)).data = x.data ++ ' ' :: (sjoin (y :: rest)).data := by
  show (x ++ " " ++ sjoin (y :: rest)).data = _
  simp only [String.data_append, strData_space]
  simp [List.append_assoc]

theorem tok_sjoin {ts : List String} (h : ∀ x ∈ ts, NiceTok x) :
    tok (sjoin ts).data = ts := by
  induction ts with
  | nil => rfl
  | cons x rest ih =>
    rcases rest with _ | ⟨y, rest2⟩
    · have hx := h x (by simp)
      show tok x.data = [x]
      rcases hx with ⟨hne, hall⟩ | rfl | rfl
      · have := tok_word hne hall (b := []) (Or.inl rfl)
        rw [List.append_nil] at this
        rw [this, strMk_data]
        rfl
      · decide
      · decide
    · have hx := h x (by simp)
      have hrest : ∀ z ∈ y :: rest2, NiceTok z := fun z hz => h z (by simp [hz])
      rw [data_sjoin_cons_cons]
      rcases hx with ⟨hne, hall⟩ | rfl | rfl
      · rw [tok_word hne hall (Or.inr ⟨' ', _, rfl, Or.inl rfl⟩), strMk_data,
          tok_cons_space (by decide), ih hrest]
      · show tok ('(' :: (' ' :: (sjoin (y :: rest2)).data)) = _
        rw [tok_cons_other (by decide) (by decide), tok_cons_space (by decide), ih hrest]
      · show tok (')' :: (' ' :: (sjoin (y :: rest2)).data)) = _
        rw [tok_cons_other (by decide) (by decide), tok_cons_space (by decide), ih hrest]

theorem strData_lparen : ("(" : String).data = ['('] := rfl

theorem strData_rparen : (")" : String).data = [')'] := rfl

theorem strData_AND : (" AND " : String).data = [' ', 'A', 'N', 'D', ' '] := rfl

theorem strData_OR : (" OR " : String).data = [' ', 'O', 'R', ' '] := rfl

theorem strData_NOT : (" NOT " : String).data = [' ', 'N', 'O', 'T', ' '] := rfl

theorem tok_AND {r : List Char} :
    tok ('A' :: 'N' :: 'D' :: ' ' :: r) = "AND" :: tok (' ' :: r) := by
  have h := tok_word (w := ['A', 'N', 'D']) (by decide) (by decide)
    (b := ' ' :: r) (Or.inr ⟨' ', r, rfl, Or.inl rfl⟩)
  simpa using h

theorem tok_OR {r : List Char} :
    tok ('O' :: 'R' :: ' ' :: r) = "OR" :: tok (' ' :: r) := by
  have h := tok_word (w := ['O', 'R']) (by decide) (by decide)
    (b := ' ' :: r) (Or.inr ⟨' ', r, rfl, Or.inl rfl⟩)
  simpa using h

theorem tok_NOT {r : List Char} :
    tok ('N' :: 'O' :: 'T' :: ' ' :: r) = "NOT" :: tok (' ' :: r) := by
  have h := tok_word (w := ['N', 'O', 'T']) (by decide) (by decide)
    (b := ' ' :: r) (Or.inr ⟨' ', r, rfl, Or.inl rfl⟩)
  simpa using h

theorem tok_to_string {t : Combination} (h : WfComb t = true) :
    ∀ b, TailOk b → tok ((Combination.to_string t).data ++ b) = t.toks ++ tok b := by
  induction t with
  | none => cases h
  | source s =>
    intro b hb
    have hw := source_word h
    show tok (s.data ++ b) = _
    rw [tok_word hw.1 hw.2 hb, strMk_data]
    rfl
  | intersection a b iha ihb =>
    rw [WfComb, Bool.and_eq_true_iff] at h
    intro b0 hb0
    show tok (("(" ++ a.to_string ++ " AND " ++ b.to_string ++ ")").data ++ b0) = _
    simp only [String.data_append, strData_lparen, strData_AND, strData_rparen,
      List.append_assoc, List.cons_append, List.nil_append]
    rw [tok_cons_other (by decide) (by decide)]
    rw [iha h.1 _ (Or.inr ⟨' ', _, rfl, Or.inl rfl⟩)]
    rw [tok_cons_space (by decide), tok_AND, tok_cons_space (by decide)]
    rw [ihb h.2 _ (Or.inr ⟨')', b0, rfl, Or.inr (Or.inr rfl)⟩)]
    rw [tok_cons_other (by decide) (by decide)]
    simp [Combination.toks, List.append_assoc]
  | union a b iha ihb =>
    rw [WfComb, Bool.and_eq_true_iff] at h
    intro b0 hb0
    show tok (("(" ++ a.to_string ++ " OR " ++ b.to_string ++ ")").data ++ b0) = _
    simp only [String.data_append, strData_lparen, strData_OR, strData_rparen,
      List.append_assoc, List.cons_append, List.nil_append]
    rw [tok_cons_other (by decide) (by decide)]
    rw [iha h.1 _ (Or.inr ⟨' ', _, rfl, Or.inl rfl⟩)]
    rw [tok_cons_space (by decide), tok_OR, tok_cons_space (by decide)]
    rw [ihb h.2 _ (Or.inr ⟨')', b0, rfl, Or.inr (Or.inr rfl)⟩)]
    rw [tok_cons_other (by decide) (by decide)]
    simp [Combination.toks, List.append_assoc]
  | not a b iha ihb =>
    rw [WfComb, Bool.and_eq_true_iff] at h
    intro b0 hb0
    show tok (("(" ++ a.to_string ++ " NOT " ++ b.to_string ++ ")").data ++ b0) = _
    simp only [String.data_append, strData_lparen, strData_NOT, strData_rparen,
      List.append_assoc, List.cons_append, List.nil_append]
    rw [tok_cons_other (by decide) (by decide)]
    rw [iha h.1 _ (Or.inr ⟨' ', _, rfl, Or.inl rfl⟩)]
    rw [tok_cons_space (by decide), tok_NOT, tok_cons_space (by decide)]
    rw [ihb h.2 _ (Or.inr ⟨')', b0, rfl, Or.inr (Or.inr rfl)⟩)]
    rw [tok_cons_other (by decide) (by decide)]
    simp [Combination.toks, List.append_assoc]

theorem dropWhile_eq_self_of_head {l : List Char}
    (h : ∀ x, l.head? = some x → x.isWhitespace = false) :
    l.dropWhile Char.isWhitespace = l := by
  cases l with
  | nil => rfl
  | cons c r =>
    rw [List.dropWhile_cons_of_neg]
    rw [h c rfl]
    exact Bool.false_ne_true

theorem trimChars_id {l : List Char}
    (h1 : ∀ x, l.head? = some x → x.isWhitespace = false)
    (h2 : ∀ x, l.getLast? = some x → x.isWhitespace = false) :
    trimChars l = l := by
  unfold trimChars
  rw [dropWhile_eq_self_of_head h1]
  rw [dropWhile_eq_self_of_head ?h]
  · exact List.reverse_reverse l
  case h =>
    intro x hx
    rw [List.head?_reverse] at hx
    exact h2 x hx

theorem trimLower_data (s : String) :
    (trimLower s).data = (trimChars s.data).map Char.toLower := rfl

theorem stepOne_of_space {s : String}
    (hh : ∀ x, s.data.head? = some x → x.isWhitespace = false)
    (hl : ∀ x, s.data.getLast? = some x → x.isWhitespace = false)
    (hsp : ' ' ∈ s.data) : stepOneFalls s := by
  have hmem : ' ' ∈ (trimLower s).data := by
    rw [trimLower_data, trimChars_id hh hl]
    exact List.mem_map.mpr ⟨' ', hsp, by decide⟩
  refine ⟨?_, ?_, ?_, ?_, ?_, ?_⟩ <;>
    · intro heq
      rw [heq] at hmem
      exact absurd hmem (by decide)

theorem stepOne_of_head_paren {s : String} (hh : s.data.head? = some '(')
    (hl : ∀ x, s.data.getLast? = some x → x.isWhitespace = false) : stepOneFalls s := by
  have hh1 : ∀ x, s.data.head? = some x → x.isWhitespace = false := by
    intro x hx
    rw [hh] at hx
    injection hx with hx
    subst hx
    decide
  have hhead : (trimLower s).data.head? = some '(' := by
    rw [trimLower_data, trimChars_id hh1 hl, List.head?_map, hh]
    rfl
  refine ⟨?_, ?_, ?_, ?_, ?_, ?_⟩ <;>
    · intro heq
      rw [heq] at hhead
      exact absurd hhead (by decide)

theorem sjoin_data_ne_nil {ts : List String} (hts : ts ≠ [])
    (h : ∀ x ∈ ts, NiceTok x) : (sjoin ts).data ≠ [] := by
  rcases ts with _ | ⟨x, rest⟩
  · exact absurd rfl hts
  rcases rest with _ | ⟨y, rest2⟩
  · exact nice_data_ne_nil (h x (by simp))
  · rw [data_sjoin_cons_cons]
    simp

theorem sjoin_head_nonws {ts : List String} (h : ∀ x ∈ ts, NiceTok x) :
    ∀ c, (sjoin ts).data.head? = some c → c.isWhitespace = false := by
  rcases ts with _ | ⟨x, rest⟩
  · intro c hc; cases hc
  rcases rest with _ | ⟨y, rest2⟩
  · intro c hc
    have hcm : c ∈ x.data := by
      cases hx : x.data with
      | nil =>
        rw [show (sjoin [x]).data = x.data from rfl, hx] at hc
        cases hc
      | cons c0 cs =>
        rw [show (sjoin [x]).data = x.data from rfl, hx] at hc
        injection hc with hc
        subst hc
        simp
    exact nice_nonws (h x (by simp)) c hcm
  · rw [data_sjoin_cons_cons]
    have hxne := nice_data_ne_nil (h x (by simp))
    obtain ⟨c0, cs, hx⟩ := List.exists_cons_of_ne_nil hxne
    rw [hx]
    intro c hc
    simp only [List.cons_append, List.head?_cons] at hc
    injection hc with hc
    subst hc
    exact nice_nonws (h x (by simp)) c0 (by rw [hx]; simp)

theorem sjoin_last_nonws {ts : List String} (h : ∀ x ∈ ts, NiceTok x) :
    ∀ c, (sjoin ts).data.getLast? = some c → c.isWhitespace = false := by
  induction ts with
  | nil => intro c hc; cases hc
  | cons x rest ih =>
    rcases rest with _ | ⟨y, rest2⟩
    · intro c hc
      have hcm : c ∈ x.data := by
        rcases List.mem_getLast?_eq_getLast (Option.mem_def.mpr hc) with ⟨hne, hceq⟩
        rw [hceq]
        exact List.getLast_mem hne
      exact nice_nonws (h x (by simp)) c hcm
    · intro c hc
      rw [data_sjoin_cons_cons, List.getLast?_append_cons] at hc
      have hne2 : (sjoin (y :: rest2)).data ≠ [] :=
        sjoin_data_ne_nil (by simp) (fun z hz => h z (by simp [hz]))
      obtain ⟨c0, cs, hx⟩ := List.exists_cons_of_ne_nil hne2
      rw [hx, List.getLast?_cons_cons] at hc
      apply ih (fun z hz => h z (by simp [hz])) c
      rw [hx]
      exact hc

theorem sjoin_stepOne {ts : List String} (h : ∀ x ∈ ts, NiceTok x)
    (hlen : 2 ≤ ts.length) : stepOneFalls (sjoin ts) := by
  rcases ts with _ | ⟨x, rest⟩
  · simp at hlen
  rcases rest with _ | ⟨y, rest2⟩
  · simp at hlen
  refine stepOne_of_space (sjoin_head_nonws h) (sjoin_last_nonws h) ?_
  rw [data_sjoin_cons_cons]
  exact List.mem_append_right _ (by simp)

theorem to_string_head_lparen {t : Combination} (h : t.isCompound = true) :
    (Combination.to_string t).data.head? = some '(' := by
  cases t with
  | none => cases h
  | source s => cases h
  | intersection a b =>
    show ((("(" ++ a.to_string ++ " AND " ++ b.to_string ++ ")") : String).data).head? = _
    simp only [String.data_append, strData_lparen, List.append_assoc, List.cons_append]
    rfl
  | union a b =>
    show ((("(" ++ a.to_string ++ " OR " ++ b.to_string ++ ")") : String).data).head? = _
    simp only [String.data_append, strData_lparen, List.append_assoc, List.cons_append]
    rfl
  | not a b =>
    show ((("(" ++ a.to_string ++ " NOT " ++ b.to_string ++ ")") : String).data).head? = _
    simp only [String.data_append, strData_lparen, List.append_assoc, List.cons_append]
    rfl

theorem to_string_last_rparen {t : Combination} (h : t.isCompound = true) :
    (Combination.to_string t).data.getLast? = some ')' := by
  cases t with
  | none => cases h
  | source s => cases h
  | intersection a b =>
    show ((("(" ++ a.to_string ++ " AND " ++ b.to_string ++ ")") : String).data).getLast? = _
    simp only [String.data_append, strData_rparen]
    exact List.getLast?_concat _
  | union a b =>
    show ((("(" ++ a.to_string ++ " OR " ++ b.to_string ++ ")") : String).data).getLast? = _
    simp only [String.data_append, strData_rparen]
    exact List.getLast?_concat _
  | not a b =>
    show ((("(" ++ a.to_string ++ " NOT " ++ b.to_string ++ ")") : String).data).getLast? = _
    simp only [String.data_append, strData_rparen]
    exact List.getLast?_concat _

theorem to_string_stepOne {t : Combination} (h : t.isCompound = true) :
    stepOneFalls (Combination.to_string t) := by
  refine stepOne_of_head_paren (to_string_head_lparen h) ?_
  intro x hx
  rw [to_string_last_rparen h] at hx
  injection hx with hx
  subst hx
  decide

theorem grabThrough {t : Combination} (h : WfComb t = true) :
    ∀ (rest : List String) (cnt : Int) (acc : List String), 1 ≤ cnt →
      grabGroup (t.toks ++ rest) cnt acc = grabGroup rest cnt (acc ++ t.toks) := by
  induction t with
  | none => cases h
  | source s =>
    intro rest cnt acc hcnt
    have hs := source_ne_parens h
    show grabGroup (s :: rest) cnt acc = _
    simp only [grabGroup]
    rw [if_neg hs.1, if_neg hs.2]
    rfl
  | intersection a b iha ihb =>
    rw [WfComb, Bool.and_eq_true_iff] at h
    intro rest cnt acc hcnt
    show grabGroup ("(" :: ((a.toks ++ "AND" :: (b.toks ++ [")"])) ++ rest)) cnt acc = _
    simp only [grabGroup, reduceIte]
    rw [if_pos (by omega : cnt > 0)]
    simp only [List.append_assoc, List.cons_append, List.nil_append]
    rw [iha h.1 ("AND" :: (b.toks ++ (")" :: rest))) (cnt + 1) _ (by omega)]
    simp only [grabGroup, reduceIte]
    rw [ihb h.2 (")" :: rest) (cnt + 1) _ (by omega)]
    simp only [List.cons_append, List.nil_append, grabGroup, reduceIte]
    have hc : cnt + 1 - 1 = cnt := by omega
    first
      | rw [hc]
      | skip
    rw [if_neg (by omega : ¬(cnt = 0))]
    simp [Combination.toks, List.append_assoc]
    all_goals (intro h0; exact absurd h0 (by omega))
  | union a b iha ihb =>
    rw [WfComb, Bool.and_eq_true_iff] at h
    intro rest cnt acc hcnt
    show grabGroup ("(" :: ((a.toks ++ "OR" :: (b.toks ++ [")"])) ++ rest)) cnt acc = _
    simp only [grabGroup, reduceIte]
    rw [if_pos (by omega : cnt > 0)]
    simp only [List.append_assoc, List.cons_append, List.nil_append]
    rw [iha h.1 ("OR" :: (b.toks ++ (")" :: rest))) (cnt + 1) _ (by omega)]
    simp only [grabGroup, reduceIte]
    rw [ihb h.2 (")" :: rest) (cnt + 1) _ (by omega)]
    simp only [List.cons_append, List.nil_append, grabGroup, reduceIte]
    have hc : cnt + 1 - 1 = cnt := by omega
    first
      | rw [hc]
      | skip
    rw [if_neg (by omega : ¬(cnt = 0))]
    simp [Combination.toks, List.append_assoc]
    all_goals (intro h0; exact absurd h0 (by omega))
  | not a b iha ihb =>
    rw [WfComb, Bool.and_eq_true_iff] at h
    intro rest cnt acc hcnt
    show grabGroup ("(" :: ((a.toks ++ "NOT" :: (b.toks ++ [")"])) ++ rest)) cnt acc = _
    simp only [grabGroup, reduceIte]
    rw [if_pos (by omega : cnt > 0)]
    simp only [List.append_assoc, List.cons_append, List.nil_append]
    rw [iha h.1 ("NOT" :: (b.toks ++ (")" :: rest))) (cnt + 1) _ (by omega)]
    simp only [grabGroup, reduceIte]
    rw [ihb h.2 (")" :: rest) (cnt + 1) _ (by omega)]
    simp only [List.cons_append, List.nil_append, grabGroup, reduceIte]
    have hc : cnt + 1 - 1 = cnt := by omega
    first
      | rw [hc]
      | skip
    rw [if_neg (by omega : ¬(cnt = 0))]
    simp [Combination.toks, List.append_assoc]
    all_goals (intro h0; exact absurd h0 (by omega))

theorem sz_pos (t : Combination) : 1 ≤ t.sz := by
  cases t <;> simp [Combination.sz] <;> omega

theorem toks_length_pos (t : Combination) : 1 ≤ t.toks.length := by
  cases t <;> simp [Combination.toks]

theorem toks_eq_inner {a : Combination} (hc : a.isCompound = true) :
    a.toks = "(" :: (innerToksOf a ++ [")"]) := by
  cases a with
  | none => cases hc
  | source s => cases hc
  | intersection x y => simp [Combination.toks, innerToksOf, List.append_assoc]
  | union x y => simp [Combination.toks, innerToksOf, List.append_assoc]
  | not x y => simp [Combination.toks, innerToksOf, List.append_assoc]

theorem inner_nice {a : Combination} (hW : WfComb a = true) (hc : a.isCompound = true) :
    ∀ x ∈ innerToksOf a, NiceTok x := by
  intro x hx
  refine toks_nice hW x ?_
  rw [toks_eq_inner hc]
  simp [hx]

theorem inner_length {a : Combination} (hc : a.isCompound = true) :
    2 ≤ (innerToksOf a).length := by
  cases a with
  | none => cases hc
  | source s => cases hc
  | intersection x y =>
    have := toks_length_pos x
    simp only [innerToksOf, List.length_append, List.length_cons]
    omega
  | union x y =>
    have := toks_length_pos x
    simp only [innerToksOf, List.length_append, List.length_cons]
    omega
  | not x y =>
    have := toks_length_pos x
    simp only [innerToksOf, List.length_append, List.length_cons]
    omega

theorem grab_innerToks {a : Combination} (hW : WfComb a = true)
    (hc : a.isCompound = true) :
    ∀ (rest : List String) (cnt : Int) (acc : List String), 1 ≤ cnt →
      grabGroup (innerToksOf a ++ rest) cnt acc =
        grabGroup rest cnt (acc ++ innerToksOf a) := by
  cases a with
  | none => cases hc
  | source s => cases hc
  | intersection x y =>
    rw [WfComb, Bool.and_eq_true_iff] at hW
    intro rest cnt acc hcnt
    show grabGroup ((x.toks ++ "AND" :: y.toks) ++ rest) cnt acc = _
    simp only [List.append_assoc, List.cons_append]
    rw [grabThrough hW.1 ("AND" :: (y.toks ++ rest)) cnt acc hcnt]
    simp only [grabGroup, reduceIte]
    rw [grabThrough hW.2 rest cnt _ hcnt]
    simp [innerToksOf, List.append_assoc]
  | union x y =>
    rw [WfComb, Bool.and_eq_true_iff] at hW
    intro rest cnt acc hcnt
    show grabGroup ((x.toks ++ "OR" :: y.toks) ++ rest) cnt acc = _
    simp only [List.append_assoc, List.cons_append]
    rw [grabThrough hW.1 ("OR" :: (y.toks ++ rest)) cnt acc hcnt]
    simp only [grabGroup, reduceIte]
    rw [grabThrough hW.2 rest cnt _ hcnt]
    simp [innerToksOf, List.append_assoc]
  | not x y =>
    rw [WfComb, Bool.and_eq_true_iff] at hW
    intro rest cnt acc hcnt
    show grabGroup ((x.toks ++ "NOT" :: y.toks) ++ rest) cnt acc = _
    simp only [List.append_assoc, List.cons_append]
    rw [grabThrough hW.1 ("NOT" :: (y.toks ++ rest)) cnt acc hcnt]
    simp only [grabGroup, reduceIte]
    rw [grabThrough hW.2 rest cnt _ hcnt]
    simp [innerToksOf, List.append_assoc]

/-- Closing parenthesis at nesting depth 1 ends the group with the accumulated tokens. -/
theorem grabGroup_close (rest acc : List String) :
    grabGroup (")" :: rest) 1 acc = some (acc, rest) := by
  simp only [grabGroup]
  rw [if_neg (by decide : ¬ (")" : String) = "(")]
  rw [if_pos trivial]
  rw [if_pos (by decide : (1 : Int) - 1 = 0)]

theorem parse_of_inner {a b t : Combination} {op : String}
    (ht : (t = Combination.intersection a b ∧ op = "AND") ∨
          (t = Combination.union a b ∧ op = "OR") ∨
          (t = Combination.not a b ∧ op = "NOT"))
    (hWa : WfComb a = true) (hWb : WfComb b = true)
    (Pa : RoundTripP a) (Qa : a.isCompound = true → RoundTripQ a)
    (Rb : RoundTripR b)
    (s : String) (hso : stepOneFalls s)
    (htok : tok s.data = a.toks ++ op :: b.toks) :
    ∀ f, parseComb (2 * t.sz + f) s = t := by
  have hszt : t.sz = 1 + a.sz + b.sz := by
    rcases ht with ⟨rfl, rfl⟩ | ⟨rfl, rfl⟩ | ⟨rfl, rfl⟩ <;> rfl
  have hsza := sz_pos a
  have hszb := sz_pos b
  intro f
  have hfe : 2 * t.sz + f = (2 * t.sz + f - 1) + 1 := by omega
  rw [hfe, parseComb]
  rw [if_neg hso.1]
  rw [if_neg ?h5]
  case h5 =>
    rintro (h1 | h1 | h1 | h1 | h1)
    · exact hso.2.1 h1
    · exact hso.2.2.1 h1
    · exact hso.2.2.2.1 h1
    · exact hso.2.2.2.2.1 h1
    · exact hso.2.2.2.2.2 h1
  rw [htok]
  rw [if_neg ?hlen]
  case hlen =>
    have h1 := toks_length_pos a
    have h2 := toks_length_pos b
    simp only [List.length_append, List.length_cons]
    omega
  cases a with
  | none => exact absurd hWa (by decide)
  | source s0 =>
    have hs0p := source_ne_parens hWa
    rw [if_neg ?hhd]
    case hhd =>
      simp only [Combination.toks, List.cons_append, List.headD_cons]
      exact hs0p.1
    simp only [Combination.toks, List.cons_append, List.nil_append]
    have hl : parseComb (2 * t.sz + f - 1) s0 = Combination.source s0 := by
      have hfa : 2 * t.sz + f - 1 = 2 * (Combination.source s0).sz + 2
          + (2 * t.sz + f - 1 - (2 * (Combination.source s0).sz + 2)) := by
        simp only [Combination.sz] at hszt ⊢
        omega
      rw [hfa]
      exact Pa _
    have hr : parseComb (2 * t.sz + f - 1) (sjoin b.toks) = b := by
      have hfb : 2 * t.sz + f - 1 = 2 * b.sz + 1
          + (2 * t.sz + f - 1 - (2 * b.sz + 1)) := by
        simp only [Combination.sz] at hszt
        omega
      rw [hfb]
      exact Rb _
    rw [hl, hr]
    rcases ht with ⟨rfl, rfl⟩ | ⟨rfl, rfl⟩ | ⟨rfl, rfl⟩
    · rw [if_pos (by decide)]
    · rw [if_neg (by decide), if_pos (by decide)]
    · rw [if_neg (by decide), if_neg (by decide), if_pos (by decide)]
  | intersection a1 a2 =>
    have hWA : WfComb (Combination.intersection a1 a2) = true := hWa
    have hcomp : (Combination.intersection a1 a2).isCompound = true := rfl
    rw [if_pos ?hhd]
    case hhd =>
      rw [toks_eq_inner hcomp]
      simp [List.cons_append, List.headD_cons]
    have hgrab : grabGroup ((Combination.intersection a1 a2).toks ++ op :: b.toks) 0 [] =
        some (innerToksOf (Combination.intersection a1 a2), op :: b.toks) := by
      rw [toks_eq_inner hcomp]
      simp only [List.cons_append, List.append_assoc, List.nil_append]
      simp only [grabGroup, reduceIte]
      rw [if_neg (by omega : ¬ ((0 : Int) > 0))]
      simp only [zero_add]
      rw [grab_innerToks hWA hcomp (")" :: (op :: b.toks)) 1 [] (by omega)]
      simp only [List.nil_append]
      exact grabGroup_close _ _
    rw [hgrab]
    dsimp only
    have hl : parseComb (2 * t.sz + f - 1)
        (sjoin (innerToksOf (Combination.intersection a1 a2))) = Combination.intersection a1 a2 := by
      have hfa : 2 * t.sz + f - 1 = 2 * (Combination.intersection a1 a2).sz
          + (2 * t.sz + f - 1 - 2 * (Combination.intersection a1 a2).sz) := by omega
      rw [hfa]
      exact Qa hcomp _
    have hr : parseComb (2 * t.sz + f - 1) (sjoin b.toks) = b := by
      have hfb : 2 * t.sz + f - 1 = 2 * b.sz + 1
          + (2 * t.sz + f - 1 - (2 * b.sz + 1)) := by omega
      rw [hfb]
      exact Rb _
    rw [hl, hr]
    rcases ht with ⟨rfl, rfl⟩ | ⟨rfl, rfl⟩ | ⟨rfl, rfl⟩
    · rw [if_pos (by decide)]
    · rw [if_neg (by decide), if_pos (by decide)]
    · rw [if_neg (by decide), if_neg (by decide), if_pos (by decide)]
  | union a1 a2 =>
    have hWA : WfComb (Combination.union a1 a2) = true := hWa
    have hcomp : (Combination.union a1 a2).isCompound = true := rfl
    rw [if_pos ?hhd]
    case hhd =>
      rw [toks_eq_inner hcomp]
      simp [List.cons_append, List.headD_cons]
    have hgrab : grabGroup ((Combination.union a1 a2).toks ++ op :: b.toks) 0 [] =
        some (innerToksOf (Combination.union a1 a2), op :: b.toks) := by
      rw [toks_eq_inner hcomp]
      simp only [List.cons_append, List.append_assoc, List.nil_append]
      simp only [grabGroup, reduceIte]
      rw [if_neg (by omega : ¬ ((0 : Int) > 0))]
      simp only [zero_add]
      rw [grab_innerToks hWA hcomp (")" :: (op :: b.toks)) 1 [] (by omega)]
      simp only [List.nil_append]
      exact grabGroup_close _ _
    rw [hgrab]
    dsimp only
    have hl : parseComb (2 * t.sz + f - 1)
        (sjoin (innerToksOf (Combination.union a1 a2))) = Combination.union a1 a2 := by
      have hfa : 2 * t.sz + f - 1 = 2 * (Combination.union a1 a2).sz
          + (2 * t.sz + f - 1 - 2 * (Combination.union a1 a2).sz) := by omega
      rw [hfa]
      exact Qa hcomp _
    have hr : parseComb (2 * t.sz + f - 1) (sjoin b.toks) = b := by
      have hfb : 2 * t.sz + f - 1 = 2 * b.sz + 1
          + (2 * t.sz + f - 1 - (2 * b.sz + 1)) := by omega
      rw [hfb]
      exact Rb _
    rw [hl, hr]
    rcases ht with ⟨rfl, rfl⟩ | ⟨rfl, rfl⟩ | ⟨rfl, rfl⟩
    · rw [if_pos (by decide)]
    · rw [if_neg (by decide), if_pos (by decide)]
    · rw [if_neg (by decide), if_neg (by decide), if_pos (by decide)]
  | not a1 a2 =>
    have hWA : WfComb (Combination.not a1 a2) = true := hWa
    have hcomp : (Combination.not a1 a2).isCompound = true := rfl
    rw [if_pos ?hhd]
    case hhd =>
      rw [toks_eq_inner hcomp]
      simp [List.cons_append, List.headD_cons]
    have hgrab : grabGroup ((Combination.not a1 a2).toks ++ op :: b.toks) 0 [] =
        some (innerToksOf (Combination.not a1 a2), op :: b.toks) := by
      rw [toks_eq_inner hcomp]
      simp only [List.cons_append, List.append_assoc, List.nil_append]
      simp only [grabGroup, reduceIte]
      rw [if_neg (by omega : ¬ ((0 : Int) > 0))]
      simp only [zero_add]
      rw [grab_innerToks hWA hcomp (")" :: (op :: b.toks)) 1 [] (by omega)]
      simp only [List.nil_append]
      exact grabGroup_close _ _
    rw [hgrab]
    dsimp only
    have hl : parseComb (2 * t.sz + f - 1)
        (sjoin (innerToksOf (Combination.not a1 a2))) = Combination.not a1 a2 := by
      have hfa : 2 * t.sz + f - 1 = 2 * (Combination.not a1 a2).sz
          + (2 * t.sz + f - 1 - 2 * (Combination.not a1 a2).sz) := by omega
      rw [hfa]
      exact Qa hcomp _
    have hr : parseComb (2 * t.sz + f - 1) (sjoin b.toks) = b := by
      have hfb : 2 * t.sz + f - 1 = 2 * b.sz + 1
          + (2 * t.sz + f - 1 - (2 * b.sz + 1)) := by omega
      rw [hfb]
      exact Rb _
    rw [hl, hr]
    rcases ht with ⟨rfl, rfl⟩ | ⟨rfl, rfl⟩ | ⟨rfl, rfl⟩
    · rw [if_pos (by decide)]
    · rw [if_neg (by decide), if_pos (by decide)]
    · rw [if_neg (by decide), if_neg (by decide), if_pos (by decide)]

/-- Generic step: a string whose token list is exactly the token list of a
well-formed compound tree parses back to that tree, given the inner round
trip. -/
theorem parse_of_toks {t : Combination} (hW : WfComb t = true)
    (hc : t.isCompound = true) (hQ : RoundTripQ t)
    (s : String) (hso : stepOneFalls s) (htok : tok s.data = t.toks) :
    ∀ f, parseComb (2 * t.sz + 1 + f) s = t := by
  intro f
  rw [show 2 * t.sz + 1 + f = (2 * t.sz + f) + 1 from by omega]
  rw [parseComb]
  rw [if_neg hso.1]
  rw [if_neg ?h5]
  case h5 =>
    rintro (h1 | h1 | h1 | h1 | h1)
    · exact hso.2.1 h1
    · exact hso.2.2.1 h1
    · exact hso.2.2.2.1 h1
    · exact hso.2.2.2.2.1 h1
    · exact hso.2.2.2.2.2 h1
  rw [htok]
  rw [if_neg ?hlen]
  case hlen =>
    rw [toks_eq_inner hc]
    have h2 := inner_length hc
    simp only [List.length_cons, List.length_append, List.length_singleton]
    omega
  rw [if_pos ?hhd]
  case hhd =>
    rw [toks_eq_inner hc]
    simp
  rw [toks_eq_inner hc]
  have hgrab : grabGroup ("(" :: (innerToksOf t ++ [")"])) 0 [] =
      some (innerToksOf t, []) := by
    simp only [grabGroup, reduceIte]
    rw [if_neg (by omega : ¬ ((0 : Int) > 0))]
    simp only [zero_add]
    rw [grab_innerToks hW hc [")"] 1 [] (by omega)]
    simp only [List.nil_append]
    exact grabGroup_close _ _
  rw [hgrab]
  dsimp only
  exact hQ f

/-- Master round trip by structural induction: every well-formed tree is
recovered from its serialisation, from the join of its inner tokens when
compound, and from the join of its full token list. -/
theorem parse_master (t : Combination) (hW : WfComb t = true) :
    RoundTripP t ∧ (t.isCompound = true → RoundTripQ t) ∧ RoundTripR t := by
  induction t with
  | none => cases hW
  | source s =>
    have hs : sourceTokOk s = true := hW
    have hbase : ∀ (g : Nat), parseComb (g + 1) s = Combination.source s := by
      intro g
      rw [parseComb]
      rw [if_neg ?hne]
      case hne =>
        rw [source_trimLower hs]
        rcases sourceTokOk_cases hs with rfl | rfl | rfl | rfl | rfl <;> decide
      rw [if_pos ?hys]
      case hys =>
        rw [source_trimLower hs]
        exact sourceTokOk_cases hs
    refine ⟨?_, ?_, ?_⟩
    · intro f
      rw [show Combination.to_string (Combination.source s) = s from rfl]
      rw [show 2 * (Combination.source s).sz + 2 + f
          = (2 * (Combination.source s).sz + 1 + f) + 1 from by omega]
      exact hbase _
    · intro hcomp
      exact Bool.noConfusion hcomp
    · intro f
      rw [show sjoin (Combination.source s).toks = s from rfl]
      rw [show 2 * (Combination.source s).sz + 1 + f
          = (2 * (Combination.source s).sz + f) + 1 from by omega]
      exact hbase _
  | intersection a b iha ihb =>
    have hWa : WfComb a = true := by
      have h := hW
      simp only [WfComb, Bool.and_eq_true] at h
      exact h.1
    have hWb : WfComb b = true := by
      have h := hW
      simp only [WfComb, Bool.and_eq_true] at h
      exact h.2
    obtain ⟨Pa, Qa, Ra⟩ := iha hWa
    obtain ⟨Pb, Qb, Rb⟩ := ihb hWb
    have hc : (Combination.intersection a b).isCompound = true := rfl
    have ht : (Combination.intersection a b = Combination.intersection a b ∧ ("AND" : String) = "AND") ∨
        (Combination.intersection a b = Combination.union a b ∧ ("AND" : String) = "OR") ∨
        (Combination.intersection a b = Combination.not a b ∧ ("AND" : String) = "NOT") :=
      Or.inl ⟨rfl, rfl⟩
    have hin : innerToksOf (Combination.intersection a b) = a.toks ++ "AND" :: b.toks := rfl
    have hQ : RoundTripQ (Combination.intersection a b) := by
      intro f
      rw [hin]
      refine parse_of_inner ht hWa hWb Pa Qa Rb _ ?_ ?_ f
      · refine sjoin_stepOne ?_ ?_
        · rw [← hin]
          exact inner_nice hW hc
        · rw [← hin]
          exact inner_length hc
      · rw [← hin]
        refine tok_sjoin (inner_nice hW hc)
    have hR : RoundTripR (Combination.intersection a b) := by
      intro f
      refine parse_of_toks hW hc hQ _ ?_ ?_ f
      · refine sjoin_stepOne (toks_nice hW) ?_
        rw [toks_eq_inner hc]
        have h2 := inner_length hc
        simp only [List.length_cons, List.length_append]
        omega
      · exact tok_sjoin (toks_nice hW)
    have hP : RoundTripP (Combination.intersection a b) := by
      intro f
      rw [show 2 * (Combination.intersection a b).sz + 2 + f
          = 2 * (Combination.intersection a b).sz + 1 + (f + 1) from by omega]
      refine parse_of_toks hW hc hQ _ ?_ ?_ (f + 1)
      · exact to_string_stepOne hc
      · have h0 := tok_to_string hW [] (Or.inl rfl)
        rw [List.append_nil] at h0
        rw [h0]
        rw [show tok ([] : List Char) = [] from rfl, List.append_nil]
    exact ⟨hP, fun _ => hQ, hR⟩
  | union a b iha ihb =>
    have hWa : WfComb a = true := by
      have h := hW
      simp only [WfComb, Bool.and_eq_true] at h
      exact h.1
    have hWb : WfComb b = true := by
      have h := hW
      simp only [WfComb, Bool.and_eq_true] at h
      exact h.2
    obtain ⟨Pa, Qa, Ra⟩ := iha hWa
    obtain ⟨Pb, Qb, Rb⟩ := ihb hWb
    have hc : (Combination.union a b).isCompound = true := rfl
    have ht : (Combination.union a b = Combination.intersection a b ∧ ("OR" : String) = "AND") ∨
        (Combination.union a b = Combination.union a b ∧ ("OR" : String) = "OR") ∨
        (Combination.union a b = Combination.not a b ∧ ("OR" : String) = "NOT") :=
      Or.inr (Or.inl ⟨rfl, rfl⟩)
    have hin : innerToksOf (Combination.union a b) = a.toks ++ "OR" :: b.toks := rfl
    have hQ : RoundTripQ (Combination.union a b) := by
      intro f
      rw [hin]
      refine parse_of_inner ht hWa hWb Pa Qa Rb _ ?_ ?_ f
      · refine sjoin_stepOne ?_ ?_
        · rw [← hin]
          exact inner_nice hW hc
        · rw [← hin]
          exact inner_length hc
      · rw [← hin]
        refine tok_sjoin (inner_nice hW hc)
    have hR : RoundTripR (Combination.union a b) := by
      intro f
      refine parse_of_toks hW hc hQ _ ?_ ?_ f
      · refine sjoin_stepOne (toks_nice hW) ?_
        rw [toks_eq_inner hc]
        have h2 := inner_length hc
        simp only [List.length_cons, List.length_append]
        omega
      · exact tok_sjoin (toks_nice hW)
    have hP : RoundTripP (Combination.union a b) := by
      intro f
      rw [show 2 * (Combination.union a b).sz + 2 + f
          = 2 * (Combination.union a b).sz + 1 + (f + 1) from by omega]
      refine parse_of_toks hW hc hQ _ ?_ ?_ (f + 1)
      · exact to_string_stepOne hc
      · have h0 := tok_to_string hW [] (Or.inl rfl)
        rw [List.append_nil] at h0
        rw [h0]
        rw [show tok ([] : List Char) = [] from rfl, List.append_nil]
    exact ⟨hP, fun _ => hQ, hR⟩
  | not a b iha ihb =>
    have hWa : WfComb a = true := by
      have h := hW
      simp only [WfComb, Bool.and_eq_true] at h
      exact h.1
    have hWb : WfComb b = true := by
      have h := hW
      simp only [WfComb, Bool.and_eq_true] at h
      exact h.2
    obtain ⟨Pa, Qa, Ra⟩ := iha hWa
    obtain ⟨Pb, Qb, Rb⟩ := ihb hWb
    have hc : (Combination.not a b).isCompound = true := rfl
    have ht : (Combination.not a b = Combination.intersection a b ∧ ("NOT" : String) = "AND") ∨
        (Combination.not a b = Combination.union a b ∧ ("NOT" : String) = "OR") ∨
        (Combination.not a b = Combination.not a b ∧ ("NOT" : String) = "NOT") :=
      Or.inr (Or.inr ⟨rfl, rfl⟩)
    have hin : innerToksOf (Combination.not a b) = a.toks ++ "NOT" :: b.toks := rfl
    have hQ : RoundTripQ (Combination.not a b) := by
      intro f
      rw [hin]
      refine parse_of_inner ht hWa hWb Pa Qa Rb _ ?_ ?_ f
      · refine sjoin_stepOne ?_ ?_
        · rw [← hin]
          exact inner_nice hW hc
        · rw [← hin]
          exact inner_length hc
      · rw [← hin]
        refine tok_sjoin (inner_nice hW hc)
    have hR : RoundTripR (Combination.not a b) := by
      intro f
      refine parse_of_toks hW hc hQ _ ?_ ?_ f
      · refine sjoin_stepOne (toks_nice hW) ?_
        rw [toks_eq_inner hc]
        have h2 := inner_length hc
        simp only [List.length_cons, List.length_append]
        omega
      · exact tok_sjoin (toks_nice hW)
    have hP : RoundTripP (Combination.not a b) := by
      intro f
      rw [show 2 * (Combination.not a b).sz + 2 + f
          = 2 * (Combination.not a b).sz + 1 + (f + 1) from by omega]
      refine parse_of_toks hW hc hQ _ ?_ ?_ (f + 1)
      · exact to_string_stepOne hc
      · have h0 := tok_to_string hW [] (Or.inl rfl)
        rw [List.append_nil] at h0
        rw [h0]
        rw [show tok ([] : List Char) = [] from rfl, List.append_nil]
    exact ⟨hP, fun _ => hQ, hR⟩

/-- The serialised string is long enough to feed the parser the fuel the
round trip needs. -/
theorem to_string_length {t : Combination} (hW : WfComb t = true) :
    2 * t.sz + 1 ≤ (Combination.to_string t).length := by
  induction t with
  | none => cases hW
  | source s =>
    have hs : sourceTokOk s = true := hW
    rcases sourceTokOk_cases hs with rfl | rfl | rfl | rfl | rfl <;> decide
  | intersection a b iha ihb =>
    have hWa : WfComb a = true := by
      have h := hW
      simp only [WfComb, Bool.and_eq_true] at h
      exact h.1
    have hWb : WfComb b = true := by
      have h := hW
      simp only [WfComb, Bool.and_eq_true] at h
      exact h.2
    have h1 := iha hWa
    have h2 := ihb hWb
    simp only [Combination.to_string, Combination.sz, String.length_append]
    have e1 : ("(" : String).length = 1 := rfl
    have e2 : ((" AND " : String)).length = 5 := rfl
    have e3 : (")" : String).length = 1 := rfl
    omega
  | union a b iha ihb =>
    have hWa : WfComb a = true := by
      have h := hW
      simp only [WfComb, Bool.and_eq_true] at h
      exact h.1
    have hWb : WfComb b = true := by
      have h := hW
      simp only [WfComb, Bool.and_eq_true] at h
      exact h.2
    have h1 := iha hWa
    have h2 := ihb hWb
    simp only [Combination.to_string, Combination.sz, String.length_append]
    have e1 : ("(" : String).length = 1 := rfl
    have e2 : ((" OR " : String)).length = 4 := rfl
    have e3 : (")" : String).length = 1 := rfl
    omega
  | not a b iha ihb =>
    have hWa : WfComb a = true := by
      have h := hW
      simp only [WfComb, Bool.and_eq_true] at h
      exact h.1
    have hWb : WfComb b = true := by
      have h := hW
      simp only [WfComb, Bool.and_eq_true] at h
      exact h.2
    have h1 := iha hWa
    have h2 := ihb hWb
    simp only [Combination.to_string, Combination.sz, String.length_append]
    have e1 : ("(" : String).length = 1 := rfl
    have e2 : ((" NOT " : String)).length = 5 := rfl
    have e3 : (")" : String).length = 1 := rfl
    omega

/-- C2 counterexample: the tree `Source("search")` contains no `None` node,
yet serialising it and re-parsing does not return the original tree — the
parser only accepts the five source tokens, so the string "search" parses to
`None`. -/
theorem c2_roundtrip_counterexample :
    noneFree (Combination.source "search") = true ∧
    parse_combination_string
        (Combination.to_string (Combination.source "search")) ≠
      Combination.source "search" := by
  constructor
  · rfl
  · decide

/-- C2 (amended): for every Combination tree with no `None` node whose every
source name is one of the five tokens the parser accepts (categories, sparql,
manual, pagepile, wikidata), serialising with `Combination::to_string` and
parsing the result with `Platform::parse_combination_string` returns a tree
equal to the original. -/
theorem c2_roundtrip (t : Combination) (h : WfComb t = true) :
    parse_combination_string (Combination.to_string t) = t := by
  have hP := (parse_master t h).1
  have hlen := to_string_length h
  rw [parse_combination_string]
  rw [show (Combination.to_string t).length + 1
      = 2 * t.sz + 2 + ((Combination.to_string t).length + 1 - (2 * t.sz + 2))
      from by omega]
  exact hP _

/-- Closed instance of the amended C2 round trip on the spec's example shape
`("categories" NOT ("sparql" OR "pagepile"))`. -/
theorem c2_roundtrip_witness :
    WfComb (Combination.not (Combination.source "categories")
      (Combination.union (Combination.source "sparql")
        (Combination.source "pagepile"))) = true ∧
    parse_combination_string (Combination.to_string
      (Combination.not (Combination.source "categories")
        (Combination.union (Combination.source "sparql")
          (Combination.source "pagepile")))) =
      Combination.not (Combination.source "categories")
        (Combination.union (Combination.source "sparql")
          (Combination.source "pagepile")) :=
  ⟨by decide, c2_roundtrip _ (by decide)⟩
